import Mathlib

/-!
Verification development for the ZIP-based storage module
(`plaso/storage/zip_file.py`).

The Python module is shallowly embedded: pure fragments become Lean
functions, the mutable `ZIPStorageFile` object becomes a state structure
threaded through the operations, byte strings become lists of byte
values, Python `int` becomes `Int`/`Nat`, and code paths that raise
exceptions return `Except String`.

Python's `heapq` is modelled by its observable behaviour: `heappush`
adds an element, `heappop` removes a least element under the comparison
order of the stored tuples.  Because every heap in the module stores
tuples that are compared lexicographically, the drain order of a heap is
fully determined by that comparison (up to indistinguishable equal
tuples), which `popMinBy` below captures by removing the first minimal
element.
-/

set_option linter.unusedVariables false

/-- Serialized attribute-container data (a Python byte string), modelled
as a list of byte values; `List.length` models `len(data)`. -/
abbrev SBytes := List Nat

deriving instance DecidableEq for Except

/-- Python byte-string comparison `a < b`: lexicographic, with a proper
leading fragment ordered before any extension of it. -/
def bytesLt : SBytes → SBytes → Bool
  | [], [] => false
  | [], _ :: _ => true
  | _ :: _, [] => false
  | a :: as, b :: bs => if a < b then true else if b < a then false else bytesLt as bs

theorem bytesLt_asymm : ∀ a b : SBytes, bytesLt a b = true → bytesLt b a = false
  | [], [], h => by simp [bytesLt] at h
  | [], _ :: _, _ => by simp [bytesLt]
  | _ :: _, [], h => by simp [bytesLt] at h
  | a :: as, b :: bs, h => by
    simp only [bytesLt] at h ⊢
    by_cases hab : a < b
    · rw [if_neg (by omega : ¬ b < a), if_pos hab]
    · by_cases hba : b < a
      · rw [if_neg hab, if_pos hba] at h
        exact absurd h (by simp)
      · rw [if_neg hab, if_neg hba] at h
        rw [if_neg hba, if_neg hab]
        exact bytesLt_asymm as bs h

theorem bytesLt_negtrans :
    ∀ a b c : SBytes, bytesLt b a = false → bytesLt c b = false → bytesLt c a = false
  | [], _, c, _, _ => by cases c <;> simp [bytesLt]
  | _ :: _, [], _, h1, _ => by simp [bytesLt] at h1
  | _ :: _, _ :: _, [], _, h2 => by simp [bytesLt] at h2
  | a :: as, b :: bs, c :: cs, h1, h2 => by
    simp only [bytesLt] at h1 h2 ⊢
    by_cases hba : b < a
    · rw [if_pos hba] at h1
      exact absurd h1 (by simp)
    · by_cases hcb : c < b
      · rw [if_pos hcb] at h2
        exact absurd h2 (by simp)
      · have hca : ¬ c < a := by omega
        by_cases hac : a < c
        · rw [if_neg hca, if_pos hac]
        · have hab : a = b := by omega
          have hbc : b = c := by omega
          subst hab; subst hbc
          rw [if_neg hba, if_neg (by omega : ¬ a < a)] at h1 h2 ⊢
          exact bytesLt_negtrans as bs cs h1 h2

/-- Removes the first minimal element of a list under `lt`; models
`heapq.heappop` on a heap holding the listed elements (`heappush` being
list insertion), since `heappop` always returns a least element. -/
def popMinBy (lt : α → α → Bool) : List α → Option (α × List α)
  | [] => none
  | x :: xs =>
    match popMinBy lt xs with
    | none => some (x, [])
    | some (m, rest) => if lt m x then some (m, x :: rest) else some (x, xs)

theorem popMinBy_eq_none {lt : α → α → Bool} {l : List α} :
    popMinBy lt l = none ↔ l = [] := by
  cases l with
  | nil => simp [popMinBy]
  | cons x xs =>
    simp only [popMinBy]
    cases h : popMinBy lt xs with
    | none => simp
    | some p =>
      cases p with
      | mk m rest => by_cases hlt : lt m x <;> simp [hlt]

theorem popMinBy_perm {lt : α → α → Bool} :
    ∀ {l : List α} {m : α} {rest : List α},
      popMinBy lt l = some (m, rest) → l.Perm (m :: rest)
  | [], m, rest, h => by simp [popMinBy] at h
  | x :: xs, m, rest, h => by
    cases h' : popMinBy lt xs with
    | none =>
      simp only [popMinBy, h', Option.some.injEq, Prod.mk.injEq] at h
      obtain ⟨h1, h2⟩ := h
      subst h1; subst h2
      have : xs = [] := popMinBy_eq_none.mp h'
      subst this
      exact List.Perm.refl _
    | some p =>
      cases p with
      | mk m' rest' =>
        simp only [popMinBy, h'] at h
        by_cases hlt : lt m' x
        · rw [if_pos hlt] at h
          simp only [Option.some.injEq, Prod.mk.injEq] at h
          obtain ⟨h1, h2⟩ := h
          subst h1; subst h2
          have ih : xs.Perm (m' :: rest') := popMinBy_perm h'
          exact (List.Perm.cons x ih).trans (List.Perm.swap m' x rest')
        · rw [if_neg hlt] at h
          simp only [Option.some.injEq, Prod.mk.injEq] at h
          obtain ⟨h1, h2⟩ := h
          subst h1; subst h2
          exact List.Perm.refl _

theorem popMinBy_min {lt : α → α → Bool}
    (hasymm : ∀ a b, lt a b = true → lt b a = false)
    (hneg : ∀ a b c, lt b a = false → lt c b = false → lt c a = false) :
    ∀ {l : List α} {m : α} {rest : List α},
      popMinBy lt l = some (m, rest) → ∀ y ∈ l, lt y m = false
  | [], m, rest, h => by simp [popMinBy] at h
  | x :: xs, m, rest, h => by
    have hirrefl : ∀ a : α, lt a a = false := by
      intro a
      by_cases ha : lt a a
      · exact hasymm a a ha
      · simpa using ha
    cases h' : popMinBy lt xs with
    | none =>
      simp only [popMinBy, h', Option.some.injEq, Prod.mk.injEq] at h
      obtain ⟨h1, h2⟩ := h
      subst h1
      have : xs = [] := popMinBy_eq_none.mp h'
      subst this
      intro y hy
      simp only [List.mem_singleton] at hy
      subst hy
      exact hirrefl y
    | some p =>
      cases p with
      | mk m' rest' =>
        simp only [popMinBy, h'] at h
        have ih : ∀ y ∈ xs, lt y m' = false := fun y hy =>
          popMinBy_min hasymm hneg h' y hy
        by_cases hlt : lt m' x
        · rw [if_pos hlt] at h
          simp only [Option.some.injEq, Prod.mk.injEq] at h
          obtain ⟨h1, h2⟩ := h
          subst h1
          intro y hy
          rcases List.mem_cons.mp hy with hy | hy
          · subst hy; exact hasymm m' y hlt
          · exact ih y hy
        · rw [if_neg hlt] at h
          simp only [Option.some.injEq, Prod.mk.injEq] at h
          obtain ⟨h1, h2⟩ := h
          subst h1
          intro y hy
          rcases List.mem_cons.mp hy with hy | hy
          · subst hy; exact hirrefl y
          · exact hneg x m' y (by simpa using hlt) (ih y hy)

theorem popMinBy_length {lt : α → α → Bool} {l : List α} {m : α} {rest : List α}
    (h : popMinBy lt l = some (m, rest)) : rest.length + 1 = l.length := by
  have := (popMinBy_perm h).length_eq
  simp at this
  omega

/-- The body of the heap drain: pops up to `fuel` least elements.  The
drain loops of the module run `len(heap)` iterations, so `popAll` below
supplies exactly that much fuel, which each `heappop` consumes one
of. -/
def popAllGo (lt : α → α → Bool) : Nat → List α → List α
  | 0, _ => []
  | fuel + 1, l =>
    match popMinBy lt l with
    | none => []
    | some (m, rest) => m :: popAllGo lt fuel rest

/-- Drains a heap completely by repeated `heappop`; models the
`for _ in range(len(heap)): heappop(heap)` drain loops of the module. -/
def popAll (lt : α → α → Bool) (l : List α) : List α := popAllGo lt l.length l

theorem popAllGo_perm (lt : α → α → Bool) :
    ∀ (fuel : Nat) (l : List α), l.length ≤ fuel → (popAllGo lt fuel l).Perm l
  | 0, l, hl => by
    have : l = [] := by cases l <;> simp_all
    subst this
    exact List.Perm.refl _
  | fuel + 1, l, hl => by
    unfold popAllGo
    cases h : popMinBy lt l with
    | none =>
      rw [popMinBy_eq_none.mp h]
    | some p =>
      cases p with
      | mk m rest =>
        have hlen := popMinBy_length h
        have ih := popAllGo_perm lt fuel rest (by omega)
        exact (ih.cons m).trans (popMinBy_perm h).symm

theorem popAll_perm (lt : α → α → Bool) (l : List α) : (popAll lt l).Perm l :=
  popAllGo_perm lt l.length l (le_refl _)

theorem popAllGo_chain {lt : α → α → Bool}
    (hasymm : ∀ a b, lt a b = true → lt b a = false)
    (hneg : ∀ a b c, lt b a = false → lt c b = false → lt c a = false) :
    ∀ (fuel : Nat) (l : List α), l.length ≤ fuel →
      List.Chain' (fun a b => lt b a = false) (popAllGo lt fuel l)
  | 0, l, hl => by simp [popAllGo]
  | fuel + 1, l, hl => by
    unfold popAllGo
    cases h : popMinBy lt l with
    | none => simp
    | some p =>
      cases p with
      | mk m rest =>
        have hlen := popMinBy_length h
        rw [List.chain'_cons']
        constructor
        · intro y hy
          have hymem : y ∈ popAllGo lt fuel rest := List.mem_of_mem_head? hy
          have hyrest : y ∈ rest := (popAllGo_perm lt fuel rest (by omega)).mem_iff.mp hymem
          have hyl : y ∈ l := (popMinBy_perm h).mem_iff.mpr (List.mem_cons_of_mem m hyrest)
          exact popMinBy_min hasymm hneg h y hyl
        · exact popAllGo_chain hasymm hneg fuel rest (by omega)

theorem popAll_chain {lt : α → α → Bool}
    (hasymm : ∀ a b, lt a b = true → lt b a = false)
    (hneg : ∀ a b c, lt b a = false → lt c b = false → lt c a = false)
    (l : List α) : List.Chain' (fun a b => lt b a = false) (popAll lt l) :=
  popAllGo_chain hasymm hneg l.length l (le_refl _)

theorem popAll_length (lt : α → α → Bool) (l : List α) :
    (popAll lt l).length = l.length :=
  (popAll_perm lt l).length_eq

/-!
### Write buffers

`_AttributeContainersList` (errors, event sources): a FIFO list of
serialized records plus a running total size.  `_SerializedEventsHeap`:
a heap of `(timestamp, event_data)` tuples plus a running total size.
-/

/-- `_AttributeContainersList`: `_list` and `data_size`. -/
structure AttributeContainersList where
  list : List SBytes
  dataSize : Nat
deriving DecidableEq

/-- A freshly constructed (or `Empty`-ed) attribute containers list. -/
def AttributeContainersList.emptyList : AttributeContainersList := ⟨[], 0⟩

/-- `number_of_attribute_containers`. -/
def AttributeContainersList.numberOfAttributeContainers
    (l : AttributeContainersList) : Nat := l.list.length

/-- `GetAttributeContainerByIndex`: returns the element when
`index < len(self._list)` and `None` otherwise. -/
def AttributeContainersList.getAttributeContainerByIndex
    (l : AttributeContainersList) (index : Nat) : Option SBytes :=
  if index < l.list.length then l.list[index]? else none

/-- `PushAttributeContainer`. -/
def AttributeContainersList.pushAttributeContainer
    (l : AttributeContainersList) (data : SBytes) : AttributeContainersList :=
  ⟨l.list ++ [data], l.dataSize + data.length⟩

/-- `PopAttributeContainer`: pops the oldest element (`list.pop(0)`). -/
def AttributeContainersList.popAttributeContainer
    (l : AttributeContainersList) : Option SBytes × AttributeContainersList :=
  match l.list with
  | [] => (none, l)
  | x :: xs => (some x, ⟨xs, l.dataSize - x.length⟩)

/-- Comparison of the `(timestamp, event_data)` tuples stored on
`_SerializedEventsHeap._heap` (Python tuple comparison: the integer
timestamps first, the serialized byte strings on a tie). -/
def serializedEventLt (a b : Int × SBytes) : Bool :=
  if a.1 < b.1 then true else if b.1 < a.1 then false else bytesLt a.2 b.2

/-- `_SerializedEventsHeap`: `_heap` and `data_size`. -/
structure SerializedEventsHeap where
  heap : List (Int × SBytes)
  dataSize : Nat
deriving DecidableEq

/-- A freshly constructed (or `Empty`-ed) serialized events heap. -/
def SerializedEventsHeap.emptyHeap : SerializedEventsHeap := ⟨[], 0⟩

/-- `_SerializedEventsHeap.PushEvent`. -/
def SerializedEventsHeap.pushEvent (h : SerializedEventsHeap)
    (timestamp : Int) (eventData : SBytes) : SerializedEventsHeap :=
  ⟨(timestamp, eventData) :: h.heap, h.dataSize + eventData.length⟩

/-- One buffered serialized event tag, holding the fields of the
`(store_number, store_index, event_uuid, event_tag_data)` tuples pushed
onto `_serialized_event_tags` by `AddEventTag` (the first three read via
`getattr(..., None)`, hence optional). -/
structure SerializedEventTag where
  storeNumber : Option Nat
  storeIndex : Option Nat
  eventUuid : Option SBytes
  data : SBytes
deriving DecidableEq

/-- Python 2 comparison of optional integers (`None` sorts before any
integer). -/
def optNatLt : Option Nat → Option Nat → Bool
  | none, none => false
  | none, some _ => true
  | some _, none => false
  | some a, some b => a < b

/-- Python 2 comparison of optional byte strings (`None` sorts before
any string). -/
def optBytesLt : Option SBytes → Option SBytes → Bool
  | none, none => false
  | none, some _ => true
  | some _, none => false
  | some a, some b => bytesLt a b

/-- Comparison of the buffered event-tag tuples
`(store_number, store_index, event_uuid, event_tag_data)`. -/
def tagTupleLt (a b : SerializedEventTag) : Bool :=
  if optNatLt a.storeNumber b.storeNumber then true
  else if optNatLt b.storeNumber a.storeNumber then false
  else if optNatLt a.storeIndex b.storeIndex then true
  else if optNatLt b.storeIndex a.storeIndex then false
  else if optBytesLt a.eventUuid b.eventUuid then true
  else if optBytesLt b.eventUuid a.eventUuid then false
  else bytesLt a.data b.data

/-!
### Flushed streams

A flush generation bundles the members written together:
`<kind>_data.N` (entries in write order), `<kind>_index.N` (the offset
table whose entry `i` is the byte offset of record `i`), and for events
also `event_timestamps.N`.
-/

/-- Byte offsets recorded by the flush loops: `WriteInitialize` returns
offset 0, and each `WriteEntry` returns the post-write offset
(4 size bytes plus the payload). -/
def buildOffsets (startOffset : Nat) : List SBytes → List Nat
  | [] => []
  | d :: ds => startOffset :: buildOffsets (startOffset + 4 + d.length) ds

/-- A flushed error / event-source stream generation
(`<kind>_data.N` plus `<kind>_index.N`). -/
structure DataStreamGen where
  number : Nat
  entries : List SBytes
  offsets : List Nat
deriving DecidableEq

/-- A flushed event stream generation (`event_data.N`, `event_index.N`,
`event_timestamps.N`). -/
structure EventStreamGen where
  number : Nat
  entries : List (Int × SBytes)
  offsets : List Nat
  timestamps : List Int
deriving DecidableEq

/-- A flushed event-tag stream generation (`event_tag_data.N` plus the
`event_tag_index.N` table built from the same drained records). -/
structure TagStreamGen where
  number : Nat
  entries : List SerializedEventTag
  offsets : List Nat
deriving DecidableEq

/-!
### `ZIPStorageFile` state

The mutable attributes set up in `ZIPStorageFile.__init__` that the
write path uses, together with the stream members written into the ZIP
file so far.  The reader-side table caches are modelled separately.
-/

structure ZIPStorageFile where
  errorStreamNumber : Nat
  errorsList : AttributeContainersList
  eventStreamNumber : Nat
  eventSourceStreamNumber : Nat
  eventSourcesList : AttributeContainersList
  eventTagStreamNumber : Nat
  serializedEventTags : List SerializedEventTag
  serializedEventTagsSize : Nat
  serializedEventsHeap : SerializedEventsHeap
  isOpen : Bool
  readOnly : Bool
  maximumBufferSize : Nat
  errorStreams : List DataStreamGen
  eventStreams : List EventStreamGen
  eventSourceStreams : List DataStreamGen
  eventTagStreams : List TagStreamGen
  analysisReportStreams : List (Nat × SBytes)
deriving DecidableEq

/-- A new empty storage file opened for writing (`__init__` followed by
`Open(path, read_only=False)` on a fresh path: all stream-number
counters are 1, all buffers empty). -/
def ZIPStorageFile.freshWritable (maximumBufferSize : Nat) : ZIPStorageFile where
  errorStreamNumber := 1
  errorsList := AttributeContainersList.emptyList
  eventStreamNumber := 1
  eventSourceStreamNumber := 1
  eventSourcesList := AttributeContainersList.emptyList
  eventTagStreamNumber := 1
  serializedEventTags := []
  serializedEventTagsSize := 0
  serializedEventsHeap := SerializedEventsHeap.emptyHeap
  isOpen := true
  readOnly := false
  maximumBufferSize := maximumBufferSize
  errorStreams := []
  eventStreams := []
  eventSourceStreams := []
  eventTagStreams := []
  analysisReportStreams := []

/-- `_WriteSerializedErrors`: drains the FIFO errors list into
`error_data.N` / `error_index.N`, bumps the stream number, empties the
buffer; returns unchanged when the buffered data size is zero. -/
def writeSerializedErrors (st : ZIPStorageFile) : ZIPStorageFile :=
  if st.errorsList.dataSize = 0 then st
  else
    { st with
      errorStreams := st.errorStreams ++
        [⟨st.errorStreamNumber, st.errorsList.list, buildOffsets 0 st.errorsList.list⟩]
      errorStreamNumber := st.errorStreamNumber + 1
      errorsList := AttributeContainersList.emptyList }

/-- `_WriteSerializedEventSources`: same drain for the event-source
FIFO list. -/
def writeSerializedEventSources (st : ZIPStorageFile) : ZIPStorageFile :=
  if st.eventSourcesList.dataSize = 0 then st
  else
    { st with
      eventSourceStreams := st.eventSourceStreams ++
        [⟨st.eventSourceStreamNumber, st.eventSourcesList.list,
          buildOffsets 0 st.eventSourcesList.list⟩]
      eventSourceStreamNumber := st.eventSourceStreamNumber + 1
      eventSourcesList := AttributeContainersList.emptyList }

/-- `_WriteSerializedEvents`: pops every `(timestamp, event_data)` tuple
off the serialized events heap (hence in tuple order), writing the data
entries, the offset table and the timestamp table in one loop; bumps
`_event_stream_number` and empties the heap. -/
def writeSerializedEvents (st : ZIPStorageFile) : ZIPStorageFile :=
  if st.serializedEventsHeap.dataSize = 0 then st
  else
    let drained := popAll serializedEventLt st.serializedEventsHeap.heap
    { st with
      eventStreams := st.eventStreams ++
        [⟨st.eventStreamNumber, drained, buildOffsets 0 (drained.map Prod.snd),
          drained.map Prod.fst⟩]
      eventStreamNumber := st.eventStreamNumber + 1
      serializedEventsHeap := SerializedEventsHeap.emptyHeap }

/-- `_WriteSerializedEventTags`: pops every buffered tag tuple off the
tags heap, writing the data entries and the paired tag index table;
bumps `_event_tag_stream_number` and resets the buffer. -/
def writeSerializedEventTags (st : ZIPStorageFile) : ZIPStorageFile :=
  if st.serializedEventTagsSize = 0 then st
  else
    let drained := popAll tagTupleLt st.serializedEventTags
    { st with
      eventTagStreams := st.eventTagStreams ++
        [⟨st.eventTagStreamNumber, drained, buildOffsets 0 (drained.map (·.data))⟩]
      eventTagStreamNumber := st.eventTagStreamNumber + 1
      serializedEventTags := []
      serializedEventTagsSize := 0 }

/-- `AddError` (zip_file.py lines 2340-2359).  Note: unlike every other
`Add*` method this one performs no `_is_open` / `_read_only` check; it
serializes, buffers, and flushes the errors list when its total size
exceeds the maximum.  (`error.storage_session` is an attribute written
onto the record itself, not storage state.) -/
def ZIPStorageFile.addError (st : ZIPStorageFile) (errorData : SBytes) :
    Except String ZIPStorageFile :=
  let st := { st with errorsList := st.errorsList.pushAttributeContainer errorData }
  if st.errorsList.dataSize > st.maximumBufferSize then
    .ok (writeSerializedErrors st)
  else
    .ok st

/-- `AddEvent`: raises on a closed or read-only file, then buffers the
serialized event on the events heap, flushing when the buffered size
exceeds the maximum. -/
def ZIPStorageFile.addEvent (st : ZIPStorageFile) (timestamp : Int)
    (eventData : SBytes) : Except String ZIPStorageFile :=
  if !st.isOpen then .error "Unable to write to closed storage file."
  else if st.readOnly then .error "Unable to write to read-only storage file."
  else
    let st := { st with serializedEventsHeap := st.serializedEventsHeap.pushEvent timestamp eventData }
    if st.serializedEventsHeap.dataSize > st.maximumBufferSize then
      .ok (writeSerializedEvents st)
    else
      .ok st

/-- `AddEventSource`: raises on a closed or read-only file, then buffers
the serialized event source, flushing the event-source list when its
total size exceeds the maximum. -/
def ZIPStorageFile.addEventSource (st : ZIPStorageFile) (sourceData : SBytes) :
    Except String ZIPStorageFile :=
  if !st.isOpen then .error "Unable to write to closed storage file."
  else if st.readOnly then .error "Unable to write to read-only storage file."
  else
    let st := { st with eventSourcesList := st.eventSourcesList.pushAttributeContainer sourceData }
    if st.eventSourcesList.dataSize > st.maximumBufferSize then
      .ok (writeSerializedEventSources st)
    else
      .ok st

/-- `AddEventTag` (zip_file.py lines 2413-2442): raises on a closed or
read-only file, pushes the tag tuple onto the tags heap and bumps the
tags buffer size — and then, when that size exceeds the maximum, calls
`self._WriteSerializedEventSources()`, i.e. flushes the event-source
buffer, not the event-tag buffer. -/
def ZIPStorageFile.addEventTag (st : ZIPStorageFile) (tag : SerializedEventTag) :
    Except String ZIPStorageFile :=
  if !st.isOpen then .error "Unable to write to closed storage file."
  else if st.readOnly then .error "Unable to write to read-only storage file."
  else
    let st := { st with
      serializedEventTags := tag :: st.serializedEventTags
      serializedEventTagsSize := st.serializedEventTagsSize + tag.data.length }
    if st.serializedEventTagsSize > st.maximumBufferSize then
      .ok (writeSerializedEventSources st)
    else
      .ok st

/-- The next analysis report number: starts at 1 and is bumped past
every existing `analysis_report_data.N` member. -/
def nextReportNumber (streams : List (Nat × SBytes)) : Nat :=
  streams.foldl (fun rn p => if rn ≤ p.1 then p.1 + 1 else rn) 1

/-- `AddAnalysisReport`: raises on a closed or read-only file, then
writes the serialized report immediately (no buffering) into a fresh
`analysis_report_data.N` stream. -/
def ZIPStorageFile.addAnalysisReport (st : ZIPStorageFile) (reportData : SBytes) :
    Except String ZIPStorageFile :=
  if !st.isOpen then .error "Unable to write to closed storage file."
  else if st.readOnly then .error "Unable to write to read-only storage file."
  else
    .ok { st with analysisReportStreams :=
            st.analysisReportStreams ++ [(nextReportNumber st.analysisReportStreams, reportData)] }

/-- `Flush`: raises on a closed file; on a writable file drains the
event-source, event, event-tag and error buffers in that order. -/
def ZIPStorageFile.flushAll (st : ZIPStorageFile) : Except String ZIPStorageFile :=
  if !st.isOpen then .error "Unable to flush a closed storage file."
  else if st.readOnly then .ok st
  else .ok (writeSerializedErrors (writeSerializedEventTags
        (writeSerializedEvents (writeSerializedEventSources st))))

/-- `Close`: raises on a closed file; flushes when writable, then marks
the file closed (the ZIP handle release and the rename of the temporary
path are filesystem effects outside this state). -/
def ZIPStorageFile.close (st : ZIPStorageFile) : Except String ZIPStorageFile :=
  if !st.isOpen then .error "Unable to flush a closed storage file."
  else if st.readOnly then .ok { st with isOpen := false }
  else
    .ok { writeSerializedErrors (writeSerializedEventTags
            (writeSerializedEvents (writeSerializedEventSources st))) with
          isOpen := false }

/-!
### Event tag index

`_EventTagIndexValue`, `_BuildTagIndex` and `_GetEventTagIndexValue`.
Identifiers are Python strings; they are modelled as byte strings, the
numeric identifier being the decimal rendering of
`'{store_number}:{store_index}'`.
-/

/-- `_EventTagIndexValue` as produced by
`_SerializedEventTagIndexTable.Read`: `tag_type` is 1 (numeric) or 2
(UUID); a UUID entry's `store_number` defaults to the stream's own
store number and its `store_index` stays `None`. -/
structure EventTagIndexValue where
  tagType : Nat
  offset : Nat
  eventUuid : Option SBytes
  storeNumber : Nat
  storeIndex : Option Nat
deriving DecidableEq

/-- Decimal rendering of a natural number as bytes. -/
def natDecimalBytes (n : Nat) : SBytes := (Nat.toDigits 10 n).map Char.toNat

/-- The numeric tag identifier `'{store_number}:{entry_index}'`
(byte 58 is the colon). -/
def numericTagIdentifier (storeNumber entryIndex : Nat) : SBytes :=
  natDecimalBytes storeNumber ++ [58] ++ natDecimalBytes entryIndex

/-- `_EventTagIndexValue.identifier`: numeric entries key on
`'{store_number}:{store_index}'`; UUID entries key on the UUID string.
`Read` admits only tag types 1 and 2, for which the identifier is
defined. -/
def EventTagIndexValue.identifier (v : EventTagIndexValue) : Option SBytes :=
  if v.tagType = 1 then
    match v.storeIndex with
    | some si => some (numericTagIdentifier v.storeNumber si)
    | none => none
  else if v.tagType = 2 then v.eventUuid
  else none

/-- Python dict insertion `d[k] = v` over an association-list model:
the new binding shadows any previous binding of `k`. -/
def dictSet (d : List (SBytes × EventTagIndexValue)) (k : SBytes)
    (v : EventTagIndexValue) : List (SBytes × EventTagIndexValue) :=
  (k, v) :: d.filter (fun p => p.1 != k)

/-- Python dict lookup `d.get(k, None)`. -/
def dictGet (d : List (SBytes × EventTagIndexValue)) (k : SBytes) :
    Option EventTagIndexValue :=
  (d.find? (fun p => p.1 == k)).map (·.2)

/-- `_BuildTagIndex`: scans every `event_tag_index.N` table in stream
order and records each entry in the dict under its identifier. -/
def buildTagIndex (tables : List (List EventTagIndexValue)) :
    List (SBytes × EventTagIndexValue) :=
  tables.foldl
    (fun d tbl => tbl.foldl
      (fun d v =>
        match v.identifier with
        | some k => dictSet d k v
        | none => d) d)
    []

/-- `_GetEventTagIndexValue` on a built index: the numeric identifier
`'{store_number}:{entry_index}'` is tried first; only when no entry
matches it is the UUID key tried; `None` when neither matches. -/
def getEventTagIndexValue (index : List (SBytes × EventTagIndexValue))
    (storeNumber entryIndex : Nat) (uuid : SBytes) : Option EventTagIndexValue :=
  let tagIdentifier := numericTagIdentifier storeNumber entryIndex
  match dictGet index tagIdentifier with
  | some v => some v
  | none => dictGet index uuid

/-- The `event_tag_index.N` entries as written by
`_WriteSerializedEventTags` and parsed back by
`_SerializedEventTagIndexTable.Read`: a truthy (non-empty) `event_uuid`
selects a UUID entry, otherwise a numeric entry; at read time a UUID
entry's `store_number` defaults to the stream's own number.  (A numeric
tag record always carries its store pair: packing `None` would already
have failed inside the flush.) -/
def tagIndexTableOfStream (g : TagStreamGen) : List EventTagIndexValue :=
  (g.entries.zip g.offsets).map (fun p =>
    match p.1.eventUuid with
    | some (c :: cs) => ⟨2, p.2, some (c :: cs), g.number, none⟩
    | _ => ⟨1, p.2, none, p.1.storeNumber.getD 0, some (p.1.storeIndex.getD 0)⟩)

/-!
### Chronological merge reader

`_InitializeMergeBuffer`, `_GetSortedEvent`, `GetEvents`.
-/

/-- A time range filter (`time_range.start_timestamp`,
`time_range.end_timestamp`). -/
structure TimeRange where
  startTimestamp : Int
  endTimestamp : Int
deriving DecidableEq

/-- A deserialized event as produced by `_GetEventObject`: the record's
timestamp and serialized form, the `store_number` / `store_index`
stamped at read time, a fresh object id `oid` modelling the identity of
the new Python object created by each `ReadSerialized` call (it is the
heap's final tie-break, see `heapEntryLt`), and the tag attached before
the event is yielded.  The event's `uuid` attribute is modelled by its
serialized form (an injective stand-in; it only feeds the tag
lookup). -/
structure MergeEvent where
  timestamp : Int
  data : SBytes
  storeNumber : Nat
  storeIndex : Nat
  oid : Nat
  tag : Option EventTagIndexValue
deriving DecidableEq

/-- An `_EventsHeap` element: the
`(event.timestamp, stream_number, entry_index, event)` tuple. -/
structure HeapEntry where
  timestamp : Int
  streamNumber : Nat
  entryIndex : Nat
  event : MergeEvent
deriving DecidableEq

/-- Python tuple comparison of two heap entries.  When the first three
components tie, Python 2 compares the `EventObject` instances
themselves which, absent rich comparison methods, orders them by object
identity; `oid` models that identity deterministically in read
order. -/
def heapEntryLt (a b : HeapEntry) : Bool :=
  if a.timestamp < b.timestamp then true
  else if b.timestamp < a.timestamp then false
  else if a.streamNumber < b.streamNumber then true
  else if b.streamNumber < a.streamNumber then false
  else if a.entryIndex < b.entryIndex then true
  else if b.entryIndex < a.entryIndex then false
  else a.event.oid < b.event.oid

/-- `_EventsHeap.PushEvent`. -/
def pushHeapEvent (heap : List HeapEntry) (event : MergeEvent)
    (streamNumber entryIndex : Nat) : List HeapEntry :=
  ⟨event.timestamp, streamNumber, entryIndex, event⟩ :: heap

/-- `_EventsHeap.PopEvent`: pops the least tuple, returning the event
and its stream number. -/
def popHeapEvent (heap : List HeapEntry) :
    Option (MergeEvent × Nat) × List HeapEntry :=
  match popMinBy heapEntryLt heap with
  | none => (none, heap)
  | some (m, rest) => (some (m.event, m.streamNumber), rest)

/-- One event stream as seen by the reader: the `event_data.N` entries
with their paired tables, and the forward read cursor
(`_SerializedDataStream._entry_index`) of the cached stream object. -/
structure ReaderStream where
  number : Nat
  entries : List (Int × SBytes)
  offsets : List Nat
  timestamps : List Int
  cursor : Nat
deriving DecidableEq

/-- The reader-side state of an open storage file: the cached event
streams, the merge heap (`_event_heap`), the next object id, and the
built event tag index (built lazily in the source; being pure, building
it once up front is observationally equal for every lookup). -/
structure ReaderState where
  streams : List ReaderStream
  heap : List HeapEntry
  nextOid : Nat
  tagIndex : List (SBytes × EventTagIndexValue)
deriving DecidableEq

/-- Replaces the (unique) cached stream object with the given number;
models updating the `self._event_streams` dict entry in place. -/
def replaceStream : List ReaderStream → Nat → ReaderStream → List ReaderStream
  | [], _, _ => []
  | t :: ts, n, s' => if t.number == n then s' :: ts else t :: replaceStream ts n s'

/-- `_GetEventObject(stream_number)` with the default entry index `-1`:
reads the next entry of the cached stream, deserializes it into a fresh
object and stamps `store_number` / `store_index`; `None` at end of
stream or for a missing stream (the source logs and returns `None`). -/
def ReaderState.getEventObject (st : ReaderState) (n : Nat) :
    Option MergeEvent × ReaderState :=
  match st.streams.find? (fun s => s.number == n) with
  | none => (none, st)
  | some s =>
    match s.entries[s.cursor]? with
    | none => (none, st)
    | some e =>
      (some ⟨e.1, e.2, n, s.cursor, st.nextOid, none⟩,
       { st with
         streams := replaceStream st.streams n { s with cursor := s.cursor + 1 }
         nextOid := st.nextOid + 1 })

/-- `_GetEventObject(stream_number, entry_index)` with entry index ≥ 0:
looks the byte offset up in the offset table and seeks there before
reading (`SeekEntryAtOffset` sets the stream's entry index); a table
access out of bounds is caught and yields no event. -/
def ReaderState.getEventObjectAt (st : ReaderState) (n entryIndex : Nat) :
    Option MergeEvent × ReaderState :=
  match st.streams.find? (fun s => s.number == n) with
  | none => (none, st)
  | some s =>
    if entryIndex < s.offsets.length then
      let s := { s with cursor := entryIndex }
      match s.entries[s.cursor]? with
      | none => (none, { st with streams := replaceStream st.streams n s })
      | some e =>
        (some ⟨e.1, e.2, n, s.cursor, st.nextOid, none⟩,
         { st with
           streams := replaceStream st.streams n { s with cursor := s.cursor + 1 }
           nextOid := st.nextOid + 1 })
    else (none, st)

/-- Events not yet read past in any stream; the termination measure of
the read loops. -/
def ReaderState.remaining (st : ReaderState) : Nat :=
  (st.streams.map (fun s => s.entries.length - s.cursor)).sum

theorem replaceStream_sum (f : ReaderStream → Nat) :
    ∀ (streams : List ReaderStream) (n : Nat) (s s' : ReaderStream),
      streams.find? (fun t => t.number == n) = some s →
      ((replaceStream streams n s').map f).sum + f s = (streams.map f).sum + f s' := by
  intro streams
  induction streams with
  | nil => intro n s s' h; simp [List.find?] at h
  | cons t ts ih =>
    intro n s s' h
    cases hn : (t.number == n) with
    | true =>
      simp only [List.find?, hn, Option.some.injEq] at h
      subst h
      simp [replaceStream, hn]
      omega
    | false =>
      simp only [List.find?, hn] at h
      simp only [replaceStream, hn, Bool.false_eq_true, if_false]
      simp only [List.map_cons, List.sum_cons]
      have := ih n s s' h
      omega

theorem getEventObject_remaining {st : ReaderState} {n : Nat} {e : MergeEvent}
    {st' : ReaderState} (h : st.getEventObject n = (some e, st')) :
    st'.remaining < st.remaining := by
  cases hf : st.streams.find? (fun s => s.number == n) with
  | none => simp [ReaderState.getEventObject, hf] at h
  | some s =>
    cases hc : s.entries[s.cursor]? with
    | none => simp [ReaderState.getEventObject, hf, hc] at h
    | some entry =>
      simp only [ReaderState.getEventObject, hf, hc, Prod.mk.injEq] at h
      obtain ⟨he, hst⟩ := h
      have hcur : s.cursor < s.entries.length := by
        have := List.getElem?_eq_some_iff.mp hc
        exact this.1
      have hsum := replaceStream_sum (fun t => t.entries.length - t.cursor)
        st.streams n s { s with cursor := s.cursor + 1 } hf
      subst hst
      simp only [ReaderState.remaining]
      dsimp only at hsum
      omega

theorem remaining_set_heap (st : ReaderState) (hp : List HeapEntry) :
    ({ st with heap := hp } : ReaderState).remaining = st.remaining := rfl

/-- The same-timestamp group loop shared by `_InitializeMergeBuffer`
and `_GetSortedEvent`: while the current event's timestamp equals the
reference timestamp, read the next event from the stream and push it —
each call site supplies the heap tuple's third component through
`pushIndex`.  `fuel` bounds the iterations; the call sites pass one
more than the number of unread events, which the loop can never
exhaust since every iteration consumes one unread event. -/
def sameTimestampLoop (n : Nat) (pushIndex : MergeEvent → Nat) :
    Nat → Int → MergeEvent → ReaderState → ReaderState
  | 0, _, _, st => st
  | fuel + 1, ref, cur, st =>
    if cur.timestamp = ref then
      match st.getEventObject n with
      | (none, st') => st'
      | (some e, st') =>
        sameTimestampLoop n pushIndex fuel ref e
          { st' with heap := pushHeapEvent st'.heap e n (pushIndex e) }
    else st

/-- The group loop of `_InitializeMergeBuffer`, which pushes each event
with `event.store_number` (not its entry index) as the heap tuple's
third component. -/
def initGroupLoop (n : Nat) (ref : Int) (cur : MergeEvent) (st : ReaderState) :
    ReaderState :=
  sameTimestampLoop n (fun e => e.storeNumber) (st.remaining + 1) ref cur st

/-- The lower-bound skip of `_InitializeMergeBuffer`: while an event was
read and its timestamp is below the range start, read the next event
from the stream.  `fuel` as in `sameTimestampLoop`. -/
def skipBelowStart (n : Nat) (start : Int) :
    Nat → Option MergeEvent → ReaderState → Option MergeEvent × ReaderState
  | 0, ev, st => (ev, st)
  | fuel + 1, ev, st =>
    match ev with
    | none => (none, st)
    | some e =>
      if e.timestamp < start then
        match st.getEventObject n with
        | (none, st') => (none, st')
        | (some e', st') => skipBelowStart n start fuel (some e') st'
      else (some e, st)

/-- The range-start scan of `_InitializeMergeBuffer`: the first table
index in `range(number_of_timestamps - 1)` whose timestamp is at most
the range start timestamp. -/
def scanStartIndex (tbl : List Int) (start : Int) : Option Nat :=
  (List.range (tbl.length - 1)).find? (fun i => decide (tbl.getD i 0 ≤ start))

/-- The read-push part of one `_InitializeMergeBuffer` loop iteration:
read the stream's first relevant event (at the scanned entry index when
one was found), skip entries below the range start, drop the stream if
the first relevant event is past the range end, otherwise push the
event and its same-timestamp group. -/
def initStreamRead (st : ReaderState) (n : Nat) (entryIndex : Option Nat)
    (tr : Option TimeRange) : ReaderState :=
  let r1 :=
    match entryIndex with
    | none => st.getEventObject n
    | some i => st.getEventObjectAt n i
  let r2 :=
    match tr with
    | none => r1
    | some r => skipBelowStart n r.startTimestamp (r1.2.remaining + 1) r1.1 r1.2
  match r2.1 with
  | none => r2.2
  | some e =>
    match tr with
    | some r =>
      if e.timestamp > r.endTimestamp then r2.2
      else
        initGroupLoop n e.timestamp e
          { r2.2 with heap := pushHeapEvent r2.2.heap e n e.storeNumber }
    | none =>
      initGroupLoop n e.timestamp e
        { r2.2 with heap := pushHeapEvent r2.2.heap e n e.storeNumber }

/-- One `_InitializeMergeBuffer` loop iteration for stream `n`: with a
time range, the timestamp table (when its stream exists) prunes the
stream — `GetTimestamp(-1)` raises on an empty table, a stream whose
last timestamp is below the range start is skipped, and otherwise the
start scan chooses the entry index; without a time range the stream is
read from its first entry. -/
def initStream (tr : Option TimeRange) (st : ReaderState) (n : Nat) :
    Except String ReaderState :=
  match tr with
  | none => .ok (initStreamRead st n none tr)
  | some r =>
    match st.streams.find? (fun s => s.number == n) with
    | none => .ok (initStreamRead st n none tr)
    | some s =>
      match s.timestamps.getLast? with
      | none => .error "IndexError: list index out of range"
      | some lastTimestamp =>
        if r.startTimestamp > lastTimestamp then .ok st
        else .ok (initStreamRead st n (scanStartIndex s.timestamps r.startTimestamp) tr)

/-- `_InitializeMergeBuffer`: fills the merge heap with the first
relevant same-timestamp group of every event stream, in stream number
order. -/
def initializeMergeBuffer (tr : Option TimeRange) :
    ReaderState → List Nat → Except String ReaderState
  | st, [] => .ok st
  | st, n :: ns =>
    match initStream tr st n with
    | .error msg => .error msg
    | .ok st' => initializeMergeBuffer tr st' ns

/-- The refill group loop of `_GetSortedEvent`: pushes subsequent
same-timestamp events, each with the previously popped event's
`store_index` as the heap tuple's third component. -/
def refillGroupLoop (n poppedIndex : Nat) (ref : Int) (cur : MergeEvent)
    (st : ReaderState) : ReaderState :=
  sameTimestampLoop n (fun _ => poppedIndex) (st.remaining + 1) ref cur st

/-- The refill step of `_GetSortedEvent`: after popping an event, read
the next event of the contributing stream and push it together with its
same-timestamp group. -/
def refill (st : ReaderState) (n poppedIndex : Nat) : ReaderState :=
  match st.getEventObject n with
  | (none, st') => st'
  | (some nextEvent, st') =>
    refillGroupLoop n poppedIndex nextEvent.timestamp nextEvent
      { st' with heap := pushHeapEvent st'.heap nextEvent n poppedIndex }

/-- `_ReadEventTagByIdentifier` as observed per yielded event: resolve
the tag index entry for `(store_number, store_index, uuid)`; the
subsequent seek into the tag data stream reads the tag record located
by that entry, which the model identifies with the entry itself. -/
def ReaderState.readEventTagByIdentifier (st : ReaderState)
    (storeNumber entryIndex : Nat) (uuid : SBytes) : Option EventTagIndexValue :=
  getEventTagIndexValue st.tagIndex storeNumber entryIndex uuid

/-- `_GetSortedEvent` after the heap has been initialized: pop the
least heap tuple; stop on an empty heap, or — with a time range — as
soon as the popped timestamp exceeds the range end; otherwise refill
from the contributing stream, attach the event's tag, and return it. -/
def getSortedEvent (tr : Option TimeRange) (st : ReaderState) :
    Option MergeEvent × ReaderState :=
  match popHeapEvent st.heap with
  | (none, _) => (none, st)
  | (some (event, streamNumber), heap') =>
    let st1 : ReaderState := { st with heap := heap' }
    match tr with
    | some r =>
      if event.timestamp > r.endTimestamp then (none, st1)
      else
        let st2 := refill st1 streamNumber event.storeIndex
        (some { event with
                tag := st2.readEventTagByIdentifier event.storeNumber event.storeIndex event.data },
         st2)
    | none =>
      let st2 := refill st1 streamNumber event.storeIndex
      (some { event with
              tag := st2.readEventTagByIdentifier event.storeNumber event.storeIndex event.data },
       st2)

/-- The `GetEvents` generator loop: yield sorted events until
`_GetSortedEvent` returns `None`.  `fuel` only bounds the recursion; the
callers pass a bound that the loop can never exhaust (each yield pops
one heap element and never grows heap-plus-unread). -/
def getEventsLoop (tr : Option TimeRange) : Nat → ReaderState → List MergeEvent
  | 0, _ => []
  | fuel + 1, st =>
    match getSortedEvent tr st with
    | (none, _) => []
    | (some e, st') => e :: getEventsLoop tr fuel st'

/-- The reader-side state obtained by reopening a closed storage file:
fresh stream cursors, no merge heap yet, and the tag index built from
the `event_tag_index.N` streams. -/
def ZIPStorageFile.openReadOnly (st : ZIPStorageFile) : ReaderState where
  streams := st.eventStreams.map (fun g => ⟨g.number, g.entries, g.offsets, g.timestamps, 0⟩)
  heap := []
  nextOid := 0
  tagIndex := buildTagIndex (st.eventTagStreams.map tagIndexTableOfStream)

/-- Insertion of a number into a sorted list (helper for `sorted`). -/
def insertSortedNat (x : Nat) : List Nat → List Nat
  | [] => [x]
  | y :: ys => if x ≤ y then x :: y :: ys else y :: insertSortedNat x ys

/-- `sorted(stream_numbers)` as used by
`_GetSerializedDataStreamNumbers`. -/
def sortNats (l : List Nat) : List Nat := l.foldr insertSortedNat []

/-- The available event stream numbers, sorted numerically
(`_GetSerializedEventStreamNumbers`). -/
def ZIPStorageFile.sortedEventStreamNumbers (st : ZIPStorageFile) : List Nat :=
  sortNats (st.eventStreams.map (·.number))

/-- `GetEvents(time_range)` on a reopened storage file: initialize the
merge buffer on the first `_GetSortedEvent` call, then drain the sorted
events.  The loop bound exceeds the number of buffered-plus-unread
events, so the generator stops only when `_GetSortedEvent` yields
nothing. -/
def ZIPStorageFile.getEvents (st : ZIPStorageFile) (tr : Option TimeRange) :
    Except String (List MergeEvent) :=
  let rd := st.openReadOnly
  match initializeMergeBuffer tr rd st.sortedEventStreamNumbers with
  | .error msg => .error msg
  | .ok rd' => .ok (getEventsLoop tr (rd'.remaining + rd'.heap.length + 1) rd')

/-!
### Offset / timestamp table caches

`_GetSerializedDataOffsetTable` and `_GetSerializedEventTimestampTable`
with their `_MAXIMUM_NUMBER_OF_CACHED_TABLES` bookkeeping.  The caches
are Python dicts keyed by stream number (association lists here, new
keys appended); the recency lists are plain Python lists.  Note that
the eviction inside `_GetSerializedDataOffsetTable` always pops
`self._event_offset_tables_lfu` — the event offset recency list — no
matter which cache the call is serving, and that `list.pop()` removes
the LAST element.
-/

/-- `_MAXIMUM_NUMBER_OF_CACHED_TABLES`. -/
def maximumNumberOfCachedTables : Nat := 5

/-- Python dict lookup by stream number. -/
def cacheGet (c : List (Nat × α)) (n : Nat) : Option α :=
  (c.find? (fun p => p.1 == n)).map (·.2)

/-- Python `del cache[n]`: raises `KeyError` when the key is absent. -/
def cacheDel (c : List (Nat × α)) (n : Nat) : Except String (List (Nat × α)) :=
  if (c.find? (fun p => p.1 == n)).isSome then
    .ok (c.filter (fun p => p.1 != n))
  else
    .error "KeyError"

/-- Python `list.pop()`: removes and returns the last element, raising
`IndexError` on an empty list. -/
def listPopLast (l : List Nat) : Except String (Nat × List Nat) :=
  match l.getLast? with
  | none => .error "IndexError: pop from empty list"
  | some x => .ok (x, l.dropLast)

/-- The recency touch shared by the cache getters: remove the stream
number from the recency list if present (`pop(index(...))`), then
append it at the end. -/
def lfuTouch (lfu : List Nat) (n : Nat) : List Nat :=
  lfu.erase n ++ [n]

/-- The table-cache attributes of `ZIPStorageFile.__init__` used on the
read path. -/
structure TableCacheState where
  eventOffsetTables : List (Nat × List Nat)
  eventOffsetTablesLfu : List Nat
  eventSourceOffsetTables : List (Nat × List Nat)
  eventSourceOffsetTablesLfu : List Nat
  eventTimestampTables : List (Nat × List Int)
  eventTimestampTablesLfu : List Nat
deriving DecidableEq

/-- The cache state of a freshly opened storage file. -/
def TableCacheState.fresh : TableCacheState := ⟨[], [], [], [], [], []⟩

/-- `_GetSerializedEventOffsetTable` =
`_GetSerializedDataOffsetTable(self._event_offset_tables,
self._event_offset_tables_lfu, 'event_index', n)`: here the recency
list popped for eviction is the same one the call is serving. -/
def getSerializedEventOffsetTable (st : TableCacheState)
    (zipTables : List (Nat × List Nat)) (streamNumber : Nat) :
    Except String (List Nat × TableCacheState) :=
  match cacheGet st.eventOffsetTables streamNumber with
  | some table =>
    .ok (table, { st with
      eventOffsetTablesLfu := lfuTouch st.eventOffsetTablesLfu streamNumber })
  | none =>
    match cacheGet zipTables streamNumber with
    | none => .error "IOError: No such stream"
    | some table =>
      let evicted : Except String TableCacheState :=
        if maximumNumberOfCachedTables ≤ st.eventOffsetTables.length then
          match listPopLast st.eventOffsetTablesLfu with
          | .error e => .error e
          | .ok (lfuStreamNumber, lfu') =>
            match cacheDel st.eventOffsetTables lfuStreamNumber with
            | .error e => .error e
            | .ok cache' =>
              .ok { st with eventOffsetTables := cache', eventOffsetTablesLfu := lfu' }
        else .ok st
      match evicted with
      | .error e => .error e
      | .ok st =>
        .ok (table, { st with
          eventOffsetTables := st.eventOffsetTables ++ [(streamNumber, table)]
          eventOffsetTablesLfu := lfuTouch st.eventOffsetTablesLfu streamNumber })

/-- `_GetSerializedEventSourceOffsetTable` =
`_GetSerializedDataOffsetTable(self._event_source_offset_tables,
self._event_source_offset_tables_lfu, 'event_source_index', n)`: the
eviction still pops `self._event_offset_tables_lfu` — the EVENT offset
recency list — and deletes that stream number from the event-source
cache. -/
def getSerializedEventSourceOffsetTable (st : TableCacheState)
    (zipTables : List (Nat × List Nat)) (streamNumber : Nat) :
    Except String (List Nat × TableCacheState) :=
  match cacheGet st.eventSourceOffsetTables streamNumber with
  | some table =>
    .ok (table, { st with
      eventSourceOffsetTablesLfu := lfuTouch st.eventSourceOffsetTablesLfu streamNumber })
  | none =>
    match cacheGet zipTables streamNumber with
    | none => .error "IOError: No such stream"
    | some table =>
      let evicted : Except String TableCacheState :=
        if maximumNumberOfCachedTables ≤ st.eventSourceOffsetTables.length then
          match listPopLast st.eventOffsetTablesLfu with
          | .error e => .error e
          | .ok (lfuStreamNumber, lfu') =>
            match cacheDel st.eventSourceOffsetTables lfuStreamNumber with
            | .error e => .error e
            | .ok cache' =>
              .ok { st with eventSourceOffsetTables := cache', eventOffsetTablesLfu := lfu' }
        else .ok st
      match evicted with
      | .error e => .error e
      | .ok st =>
        .ok (table, { st with
          eventSourceOffsetTables := st.eventSourceOffsetTables ++ [(streamNumber, table)]
          eventSourceOffsetTablesLfu := lfuTouch st.eventSourceOffsetTablesLfu streamNumber })

/-- `_GetSerializedEventTimestampTable`: reads `event_timestamps.N`
through the timestamp-table cache; here the eviction pops
`self._event_timestamp_tables_lfu` — this cache's own recency list. -/
def getSerializedEventTimestampTable (st : TableCacheState)
    (zipTables : List (Nat × List Int)) (streamNumber : Nat) :
    Except String (List Int × TableCacheState) :=
  match cacheGet st.eventTimestampTables streamNumber with
  | some table =>
    .ok (table, { st with
      eventTimestampTablesLfu := lfuTouch st.eventTimestampTablesLfu streamNumber })
  | none =>
    match cacheGet zipTables streamNumber with
    | none => .error "IOError: No such stream"
    | some table =>
      let evicted : Except String TableCacheState :=
        if maximumNumberOfCachedTables ≤ st.eventTimestampTables.length then
          match listPopLast st.eventTimestampTablesLfu with
          | .error e => .error e
          | .ok (lfuStreamNumber, lfu') =>
            match cacheDel st.eventTimestampTables lfuStreamNumber with
            | .error e => .error e
            | .ok cache' =>
              .ok { st with eventTimestampTables := cache', eventTimestampTablesLfu := lfu' }
        else .ok st
      match evicted with
      | .error e => .error e
      | .ok st =>
        .ok (table, { st with
          eventTimestampTables := st.eventTimestampTables ++ [(streamNumber, table)]
          eventTimestampTablesLfu := lfuTouch st.eventTimestampTablesLfu streamNumber })

/-!
### `GetEventSourceByIndex`

Walks the finalized event-source streams (loading each stream's offset
table through the cache above), decrementing the index by each stream's
entry count, and falls through to the in-memory event-source buffer.
-/

/-- The stream loop of `GetEventSourceByIndex`. -/
def getEventSourceByIndexLoop (zipTables : List (Nat × List Nat))
    (zipData : List (Nat × List SBytes)) :
    TableCacheState → Nat → List Nat →
    Except String (Option SBytes × TableCacheState × Nat)
  | st, index, [] => .ok (none, st, index)
  | st, index, n :: ns =>
    match getSerializedEventSourceOffsetTable st zipTables n with
    | .error e => .error e
    | .ok (offsetTable, st') =>
      if offsetTable.length ≤ index then
        getEventSourceByIndexLoop zipTables zipData st' (index - offsetTable.length) ns
      else
        match zipData.find? (fun p => p.1 == n) with
        | none => .error "IOError: No such stream"
        | some s => .ok ((s.2)[index]?, st', index)

/-- `GetEventSourceByIndex`: after exhausting every finalized
event-source stream, reads the in-memory buffer by the decremented
index (`GetAttributeContainerByIndex` returning `None` past its end,
and `_ReadAttributeContainer(None)` returning `None`). -/
def getEventSourceByIndex (zipTables : List (Nat × List Nat))
    (zipData : List (Nat × List SBytes)) (eventSourceStreamNumber : Nat)
    (buffer : AttributeContainersList) (st : TableCacheState) (index : Nat) :
    Except String (Option SBytes × TableCacheState) :=
  match getEventSourceByIndexLoop zipTables zipData st index
      (List.range' 1 (eventSourceStreamNumber - 1)) with
  | .error e => .error e
  | .ok (some d, st', _) => .ok (some d, st')
  | .ok (none, st', index') => .ok (buffer.getAttributeContainerByIndex index', st')

/-!
### `_SerializedDataStream` write lifecycle (file-system view)

`WriteInitialize` creates the temporary stream file at
`os.path.join(self._path, self._stream_name)`.  `WriteAbort` closes the
file object and then removes `self._stream_name` — the bare relative
name, which the OS resolves against the process working directory, not
against `self._path`.
-/

/-- A minimal file-system view: the process working directory and the
set of existing files as (directory, file name) pairs. -/
structure WriteFileSystem where
  cwd : String
  files : List (String × String)
deriving DecidableEq

/-- The write-relevant state of a `_SerializedDataStream`: the storage
file's directory (`self._path`), the stream name, and whether the
temporary file object is open. -/
structure SerializedDataStreamWriter where
  path : String
  streamName : String
  fileObjectOpen : Bool
deriving DecidableEq

/-- `WriteInitialize` (named `writeInit` here): opens
`os.path.join(self._path, self._stream_name)` for writing, creating the
temporary file in the storage directory. -/
def writeInit (fs : WriteFileSystem) (w : SerializedDataStreamWriter) :
    WriteFileSystem × SerializedDataStreamWriter :=
  ({ fs with files := fs.files ++ [(w.path, w.streamName)] },
   { w with fileObjectOpen := true })

/-- `WriteAbort`: closes the file object, then checks
`os.path.exists(self._stream_name)` and removes that path — the bare
stream name resolved against the working directory. -/
def writeAbort (fs : WriteFileSystem) (w : SerializedDataStreamWriter) :
    WriteFileSystem × SerializedDataStreamWriter :=
  let w := { w with fileObjectOpen := false }
  if (fs.cwd, w.streamName) ∈ fs.files then
    ({ fs with files := fs.files.filter (fun p => p ≠ (fs.cwd, w.streamName)) }, w)
  else
    (fs, w)

/-!
### Task / session storage merge protocol (`ZIPStorageFileWriter`)
-/

/-- `definitions.STORAGE_TYPE_SESSION` / `STORAGE_TYPE_TASK`. -/
inductive StorageType where
  | session
  | task
deriving DecidableEq

/-- The records held by a finished task storage file, as read back
record by record through the task container's Get* interfaces. -/
structure TaskRecords where
  errors : List SBytes
  events : List (Int × SBytes)
  sources : List SBytes
  tags : List SerializedEventTag
  reports : List SBytes
deriving DecidableEq

/-- The state of a session `ZIPStorageFileWriter`: its open storage
file (if any), its storage type, the task scratch paths, and the files
currently present in the `merge-ready` directory, keyed by full path
and holding the records of the finished task container stored there. -/
structure ZIPStorageFileWriter where
  storageFile : Option ZIPStorageFile
  storageType : StorageType
  taskStoragePath : Option String
  mergeTaskStoragePath : Option String
  mergeFiles : List (String × TaskRecords)
deriving DecidableEq

/-- `os.path.join(self._merge_task_storage_path,
'{task_name}.plaso')`. -/
def taskFilePath (mergePath taskName : String) : String :=
  mergePath ++ "/" ++ taskName ++ ".plaso"

/-- `CheckTaskStorageReadyForMerge`: true iff the renamed task file
exists in the `merge-ready` directory. -/
def ZIPStorageFileWriter.checkTaskStorageReadyForMerge
    (w : ZIPStorageFileWriter) (taskName : String) : Except String Bool :=
  if w.storageType ≠ StorageType.session then .error "Unsupported storage type."
  else
    match w.mergeTaskStoragePath with
    | none => .error "Missing merge task storage path."
    | some p =>
      .ok ((w.mergeFiles.find? (fun f => f.1 == taskFilePath p taskName)).isSome)

/-- Modelled from the spec: `MergeFromStorage` lives on
`interface.StorageWriter`, whose module is not under `src/`.  Per the
spec it "replays every error/event/event-source/event-tag/
analysis-report through this session container's own Add* operations
(so flush thresholds, stream numbering, and tag indexing behave exactly
as for directly-added records)". -/
def mergeFromStorage (sf : ZIPStorageFile) (r : TaskRecords) :
    Except String ZIPStorageFile :=
  (r.errors.foldlM ZIPStorageFile.addError sf).bind (fun sf =>
  (r.events.foldlM (fun (sf : ZIPStorageFile) p => sf.addEvent p.1 p.2) sf).bind (fun sf =>
  (r.sources.foldlM ZIPStorageFile.addEventSource sf).bind (fun sf =>
  (r.tags.foldlM ZIPStorageFile.addEventTag sf).bind (fun sf =>
  r.reports.foldlM ZIPStorageFile.addAnalysisReport sf))))

/-- `MergeTaskStorage`: checks the storage type and the merge path,
returns `False` when the task's file is not present in the
`merge-ready` directory; otherwise opens it read-only, replays its
records into the session storage, deletes the file, and returns
`True`. -/
def ZIPStorageFileWriter.mergeTaskStorage (w : ZIPStorageFileWriter)
    (taskName : String) : Except String (Bool × ZIPStorageFileWriter) :=
  if w.storageType ≠ StorageType.session then .error "Unsupported storage type."
  else
    match w.mergeTaskStoragePath with
    | none => .error "Missing merge task storage path."
    | some p =>
      let fp := taskFilePath p taskName
      match w.mergeFiles.find? (fun f => f.1 == fp) with
      | none => .ok (false, w)
      | some f =>
        match w.storageFile with
        | none => .error "Unable to write to closed storage writer."
        | some sf =>
          match mergeFromStorage sf f.2 with
          | .error e => .error e
          | .ok sf' =>
            .ok (true, { w with
              storageFile := some sf'
              mergeFiles := w.mergeFiles.filter (fun g => g.1 != fp) })

/-!
### Records contained in a storage file

The multiset of records a storage file holds for each kind — the
records in its finalized streams plus the records still buffered (the
latter become streams at the final flush on `Close`, which preserves
these multisets). -/

def ZIPStorageFile.containedErrors (st : ZIPStorageFile) : List SBytes :=
  (st.errorStreams.map (·.entries)).flatten ++ st.errorsList.list

def ZIPStorageFile.containedEvents (st : ZIPStorageFile) : List (Int × SBytes) :=
  (st.eventStreams.map (·.entries)).flatten ++ st.serializedEventsHeap.heap

def ZIPStorageFile.containedEventSources (st : ZIPStorageFile) : List SBytes :=
  (st.eventSourceStreams.map (·.entries)).flatten ++ st.eventSourcesList.list

def ZIPStorageFile.containedEventTags (st : ZIPStorageFile) : List SerializedEventTag :=
  (st.eventTagStreams.map (·.entries)).flatten ++ st.serializedEventTags

def ZIPStorageFile.containedAnalysisReports (st : ZIPStorageFile) : List SBytes :=
  st.analysisReportStreams.map (·.2)

/-!
### The round trip of events through a storage file

A sequence of `AddEvent` calls on a fresh writable container, `Close`,
reopen read-only, `GetEvents`.
-/

/-- A sequence of `AddEvent` calls. -/
def runAddEvents (st : ZIPStorageFile) :
    List (Int × SBytes) → Except String ZIPStorageFile
  | [] => .ok st
  | (t, d) :: rest =>
    match st.addEvent t d with
    | .error e => .error e
    | .ok st' => runAddEvents st' rest

/-- Add the given events to a fresh writable container, `Close` it,
reopen it read-only and drain `GetEvents(time_range)`. -/
def eventsRoundTrip (adds : List (Int × SBytes)) (maximumBufferSize : Nat)
    (tr : Option TimeRange) : Except String (List MergeEvent) :=
  (runAddEvents (ZIPStorageFile.freshWritable maximumBufferSize) adds).bind
    (fun st => st.close.bind (fun st => st.getEvents tr))

/-! ### Writer-side lemmas -/

theorem serializedEventLt_asymm (a b : Int × SBytes) :
    serializedEventLt a b = true → serializedEventLt b a = false := by
  unfold serializedEventLt
  by_cases h1 : a.1 < b.1
  · intro _
    rw [if_neg (by omega : ¬ b.1 < a.1), if_pos h1]
  · by_cases h2 : b.1 < a.1
    · rw [if_neg h1, if_pos h2]
      intro h; exact absurd h (by simp)
    · rw [if_neg h1, if_neg h2, if_neg h2, if_neg h1]
      exact bytesLt_asymm a.2 b.2

theorem serializedEventLt_negtrans (a b c : Int × SBytes) :
    serializedEventLt b a = false → serializedEventLt c b = false →
    serializedEventLt c a = false := by
  unfold serializedEventLt
  by_cases hba : b.1 < a.1
  · rw [if_pos hba]; intro h; exact absurd h (by simp)
  · rw [if_neg hba]
    by_cases hcb : c.1 < b.1
    · rw [if_pos hcb]; intro _ h; exact absurd h (by simp)
    · rw [if_neg hcb]
      by_cases hab : a.1 < b.1
      · intro _ _
        rw [if_neg (by omega : ¬ c.1 < a.1), if_pos (by omega : a.1 < c.1)]
      · rw [if_neg hab]
        by_cases hbc : b.1 < c.1
        · intro _ _
          rw [if_neg (by omega : ¬ c.1 < a.1), if_pos (by omega : a.1 < c.1)]
        · rw [if_neg hbc]
          have hca : ¬ c.1 < a.1 := by omega
          have hac : ¬ a.1 < c.1 := by omega
          rw [if_neg hca, if_neg hac]
          exact bytesLt_negtrans a.2 b.2 c.2

/-- A fully drained serialized-events heap is ordered by the tuple
comparison, hence its timestamps are non-decreasing. -/
theorem popAll_serializedEvents_sorted (l : List (Int × SBytes)) :
    List.Chain' (fun a b : Int × SBytes => a.1 ≤ b.1)
      (popAll serializedEventLt l) := by
  have h := popAll_chain serializedEventLt_asymm serializedEventLt_negtrans l
  refine h.imp ?_
  intro a b hab
  unfold serializedEventLt at hab
  by_cases hba : b.1 < a.1
  · rw [if_pos hba] at hab
    exact absurd hab (by simp)
  · omega

/-- The writer-side invariant threaded through `AddEvent` calls: the
file is open and writable, every flushed event stream has
non-decreasing timestamps, and the flushed stream numbers are strictly
increasing and below the stream-number counter. -/
def WriterInv (st : ZIPStorageFile) : Prop :=
  st.isOpen = true ∧ st.readOnly = false ∧
  (∀ g ∈ st.eventStreams, List.Chain' (fun a b : Int × SBytes => a.1 ≤ b.1) g.entries) ∧
  List.Pairwise (· < ·) (st.eventStreams.map (·.number)) ∧
  (∀ g ∈ st.eventStreams, g.number < st.eventStreamNumber)

theorem writerInv_fresh (m : Nat) : WriterInv (ZIPStorageFile.freshWritable m) := by
  refine ⟨rfl, rfl, ?_, ?_, ?_⟩ <;> simp [ZIPStorageFile.freshWritable]

theorem writeSerializedEvents_writerInv {st : ZIPStorageFile} (h : WriterInv st) :
    WriterInv (writeSerializedEvents st) := by
  obtain ⟨h1, h2, h3, h4, h5⟩ := h
  unfold writeSerializedEvents
  by_cases hz : st.serializedEventsHeap.dataSize = 0
  · rw [if_pos hz]; exact ⟨h1, h2, h3, h4, h5⟩
  · rw [if_neg hz]
    refine ⟨h1, h2, ?_, ?_, ?_⟩
    · intro g hg
      simp only [List.mem_append, List.mem_singleton] at hg
      rcases hg with hg | hg
      · exact h3 g hg
      · subst hg
        exact popAll_serializedEvents_sorted _
    · simp only [List.map_append, List.map_cons, List.map_nil]
      rw [List.pairwise_append]
      refine ⟨h4, by simp, ?_⟩
      intro a ha b hb
      simp only [List.mem_map] at ha
      simp only [List.mem_singleton] at hb
      obtain ⟨g, hg, hga⟩ := ha
      subst hb
      rw [← hga]
      exact h5 g hg
    · intro g hg
      simp only [List.mem_append, List.mem_singleton] at hg
      rcases hg with hg | hg
      · exact Nat.lt_succ_of_lt (h5 g hg)
      · subst hg
        exact Nat.lt_succ_self _

theorem addEvent_writerInv {st : ZIPStorageFile} (h : WriterInv st)
    (t : Int) (d : SBytes) :
    ∃ st', st.addEvent t d = .ok st' ∧ WriterInv st' := by
  obtain ⟨h1, h2, h3, h4, h5⟩ := h
  unfold ZIPStorageFile.addEvent
  rw [if_neg (by rw [h1]; simp : ¬ ((!st.isOpen) = true)),
      if_neg (by rw [h2]; simp : ¬ (st.readOnly = true))]
  have hinv1 : WriterInv
      { st with serializedEventsHeap := st.serializedEventsHeap.pushEvent t d } :=
    ⟨h1, h2, h3, h4, h5⟩
  dsimp only
  split
  · exact ⟨_, rfl, writeSerializedEvents_writerInv hinv1⟩
  · exact ⟨_, rfl, hinv1⟩

theorem runAddEvents_writerInv :
    ∀ (adds : List (Int × SBytes)) (st : ZIPStorageFile), WriterInv st →
      ∃ st', runAddEvents st adds = .ok st' ∧ WriterInv st'
  | [], st, h => ⟨st, rfl, h⟩
  | (t, d) :: rest, st, h => by
    obtain ⟨st1, hok, hinv⟩ := addEvent_writerInv h t d
    unfold runAddEvents
    rw [hok]
    exact runAddEvents_writerInv rest st1 hinv

/-- The stream-shape facts that survive `Close`. -/
def StreamsInv (st : ZIPStorageFile) : Prop :=
  (∀ g ∈ st.eventStreams, List.Chain' (fun a b : Int × SBytes => a.1 ≤ b.1) g.entries) ∧
  List.Pairwise (· < ·) (st.eventStreams.map (·.number))

theorem writeSerializedEventSources_eventFields (st : ZIPStorageFile) :
    (writeSerializedEventSources st).eventStreams = st.eventStreams ∧
    (writeSerializedEventSources st).serializedEventsHeap = st.serializedEventsHeap ∧
    (writeSerializedEventSources st).isOpen = st.isOpen ∧
    (writeSerializedEventSources st).readOnly = st.readOnly ∧
    (writeSerializedEventSources st).eventStreamNumber = st.eventStreamNumber := by
  unfold writeSerializedEventSources
  by_cases hz : st.eventSourcesList.dataSize = 0
  · rw [if_pos hz]; exact ⟨rfl, rfl, rfl, rfl, rfl⟩
  · rw [if_neg hz]; exact ⟨rfl, rfl, rfl, rfl, rfl⟩

theorem writeSerializedEventTags_eventFields (st : ZIPStorageFile) :
    (writeSerializedEventTags st).eventStreams = st.eventStreams ∧
    (writeSerializedEventTags st).isOpen = st.isOpen := by
  unfold writeSerializedEventTags
  by_cases hz : st.serializedEventTagsSize = 0
  · rw [if_pos hz]; exact ⟨rfl, rfl⟩
  · rw [if_neg hz]; exact ⟨rfl, rfl⟩

theorem writeSerializedErrors_eventFields (st : ZIPStorageFile) :
    (writeSerializedErrors st).eventStreams = st.eventStreams ∧
    (writeSerializedErrors st).isOpen = st.isOpen := by
  unfold writeSerializedErrors
  by_cases hz : st.errorsList.dataSize = 0
  · rw [if_pos hz]; exact ⟨rfl, rfl⟩
  · rw [if_neg hz]; exact ⟨rfl, rfl⟩

theorem close_streamsInv {st : ZIPStorageFile} (h : WriterInv st) :
    ∃ st', st.close = .ok st' ∧ StreamsInv st' := by
  obtain ⟨h1, h2, h3, h4, h5⟩ := h
  unfold ZIPStorageFile.close
  rw [if_neg (by rw [h1]; simp : ¬ ((!st.isOpen) = true)),
      if_neg (by rw [h2]; simp : ¬ (st.readOnly = true))]
  refine ⟨_, rfl, ?_⟩
  have hsrc := writeSerializedEventSources_eventFields st
  have hinv1 : WriterInv (writeSerializedEventSources st) := by
    refine ⟨hsrc.2.2.1.trans h1, hsrc.2.2.2.1.trans h2, ?_, ?_, ?_⟩
    · rw [hsrc.1]; exact h3
    · rw [hsrc.1]; exact h4
    · rw [hsrc.1, hsrc.2.2.2.2]; exact h5
  have hinv2 : WriterInv (writeSerializedEvents (writeSerializedEventSources st)) :=
    writeSerializedEvents_writerInv hinv1
  have htags := writeSerializedEventTags_eventFields
    (writeSerializedEvents (writeSerializedEventSources st))
  have herrs := writeSerializedErrors_eventFields
    (writeSerializedEventTags (writeSerializedEvents (writeSerializedEventSources st)))
  constructor
  · show ∀ g ∈ _, _
    simp only []
    rw [herrs.1, htags.1]
    exact hinv2.2.2.1
  · show List.Pairwise _ _
    simp only []
    rw [herrs.1, htags.1]
    exact hinv2.2.2.2.1

/-! ### Reader-side lemmas -/

theorem heapEntryLt_iff (a b : HeapEntry) :
    heapEntryLt a b = true ↔
      (a.timestamp < b.timestamp ∨
        (a.timestamp = b.timestamp ∧ (a.streamNumber < b.streamNumber ∨
          (a.streamNumber = b.streamNumber ∧ (a.entryIndex < b.entryIndex ∨
            (a.entryIndex = b.entryIndex ∧ a.event.oid < b.event.oid)))))) := by
  unfold heapEntryLt
  repeat' split
  all_goals simp_all
  all_goals omega

theorem heapEntryLt_asymm (a b : HeapEntry) :
    heapEntryLt a b = true → heapEntryLt b a = false := by
  intro h
  have h1 := (heapEntryLt_iff a b).mp h
  by_cases h2 : heapEntryLt b a = true
  · have h3 := (heapEntryLt_iff b a).mp h2
    exfalso
    omega
  · simpa using h2

theorem heapEntryLt_negtrans (a b c : HeapEntry) :
    heapEntryLt b a = false → heapEntryLt c b = false → heapEntryLt c a = false := by
  intro h1 h2
  by_cases h3 : heapEntryLt c a = true
  · have g3 := (heapEntryLt_iff c a).mp h3
    have g1 : ¬ (heapEntryLt b a = true) := by simp [h1]
    have g2 : ¬ (heapEntryLt c b = true) := by simp [h2]
    rw [heapEntryLt_iff] at g1 g2
    exfalso
    omega
  · simpa using h3

/-- The popped heap entry's timestamp bounds every surviving entry. -/
theorem heapEntryLt_min_ts {m h : HeapEntry} (hle : heapEntryLt h m = false) :
    m.timestamp ≤ h.timestamp := by
  have g : ¬ (heapEntryLt h m = true) := by simp [hle]
  rw [heapEntryLt_iff] at g
  omega

theorem replaceStream_map_number {s' : ReaderStream} :
    ∀ (streams : List ReaderStream) (n : Nat), s'.number = n →
      (replaceStream streams n s').map (·.number) = streams.map (·.number)
  | [], n, _ => rfl
  | t :: ts, n, h => by
    unfold replaceStream
    by_cases ht : t.number == n
    · rw [if_pos ht]
      simp only [List.map_cons]
      rw [h, (beq_iff_eq.mp ht)]
    · rw [if_neg ht]
      simp only [List.map_cons]
      rw [replaceStream_map_number ts n h]

theorem replaceStream_mem {s' t : ReaderStream} :
    ∀ {streams : List ReaderStream} {n : Nat},
      t ∈ replaceStream streams n s' → t = s' ∨ t ∈ streams := by
  intro streams
  induction streams with
  | nil => intro n h; simp [replaceStream] at h
  | cons u us ih =>
    intro n h
    unfold replaceStream at h
    by_cases hu : u.number == n
    · rw [if_pos hu] at h
      rcases List.mem_cons.mp h with h | h
      · exact Or.inl h
      · exact Or.inr (List.mem_cons_of_mem u h)
    · rw [if_neg hu] at h
      rcases List.mem_cons.mp h with h | h
      · exact Or.inr (h ▸ List.mem_cons_self u us)
      · rcases ih h with h | h
        · exact Or.inl h
        · exact Or.inr (List.mem_cons_of_mem u h)

theorem mem_replaceStream_of_ne {s' t : ReaderStream} :
    ∀ {streams : List ReaderStream} {n : Nat},
      t ∈ streams → t.number ≠ n → t ∈ replaceStream streams n s' := by
  intro streams
  induction streams with
  | nil => intro n h _; simp at h
  | cons u us ih =>
    intro n h hne
    unfold replaceStream
    by_cases hu : u.number == n
    · rw [if_pos hu]
      rcases List.mem_cons.mp h with h | h
      · exact absurd (h ▸ (beq_iff_eq.mp hu)) hne
      · exact List.mem_cons_of_mem s' h
    · rw [if_neg hu]
      rcases List.mem_cons.mp h with h | h
      · exact List.mem_cons.mpr (Or.inl h)
      · exact List.mem_cons_of_mem u (ih h hne)

theorem mem_replaceStream_self {s' : ReaderStream} :
    ∀ {streams : List ReaderStream} {n : Nat} {s : ReaderStream},
      streams.find? (fun u => u.number == n) = some s →
      s' ∈ replaceStream streams n s' := by
  intro streams
  induction streams with
  | nil => intro n s h; simp [List.find?] at h
  | cons u us ih =>
    intro n s h
    unfold replaceStream
    cases hu : (u.number == n) with
    | true => simp
    | false =>
      simp only [Bool.false_eq_true, if_false]
      simp only [List.find?, hu] at h
      exact List.mem_cons_of_mem u (ih h)

/-- With pairwise-distinct stream numbers, two members with the same
number coincide. -/
theorem mem_unique_number :
    ∀ {streams : List ReaderStream}, (streams.map (·.number)).Nodup →
      ∀ {a b : ReaderStream}, a ∈ streams → b ∈ streams → a.number = b.number → a = b := by
  intro streams
  induction streams with
  | nil => intro _ a b h; simp at h
  | cons u us ih =>
    intro hnd a b ha hb hab
    simp only [List.map_cons, List.nodup_cons] at hnd
    rcases List.mem_cons.mp ha with ha | ha <;> rcases List.mem_cons.mp hb with hb | hb
    · rw [ha, hb]
    · exfalso
      apply hnd.1
      rw [← ha, hab]
      exact List.mem_map_of_mem (·.number) hb
    · exfalso
      apply hnd.1
      rw [← hb, ← hab]
      exact List.mem_map_of_mem (·.number) ha
    · exact ih hnd.2 ha hb hab

/-- With pairwise-distinct stream numbers, `find?` by number returns
exactly the member. -/
theorem find?_eq_of_mem_nodup :
    ∀ {streams : List ReaderStream}, (streams.map (·.number)).Nodup →
      ∀ {s : ReaderStream}, s ∈ streams →
        streams.find? (fun t => t.number == s.number) = some s := by
  intro streams
  induction streams with
  | nil => intro _ s h; simp at h
  | cons u us ih =>
    intro hnd s hs
    simp only [List.map_cons, List.nodup_cons] at hnd
    rcases List.mem_cons.mp hs with hs | hs
    · subst hs
      simp [List.find?]
    · have hne : ¬ (u.number == s.number) = true := by
        simp only [beq_iff_eq]
        intro h
        exact hnd.1 (h ▸ List.mem_map_of_mem (·.number) hs)
      simp only [List.find?, Bool.not_eq_true] at hne ⊢
      rw [hne]
      exact ih hnd.2 hs

/-- What a successful `_GetEventObject(stream_number)` read does. -/
theorem getEventObject_some_spec {st : ReaderState} {n : Nat} {e : MergeEvent}
    {st' : ReaderState} (h : st.getEventObject n = (some e, st')) :
    ∃ s, st.streams.find? (fun t => t.number == n) = some s ∧
      ∃ hc : s.cursor < s.entries.length,
        e.timestamp = (s.entries.get ⟨s.cursor, hc⟩).1 ∧
        e.data = (s.entries.get ⟨s.cursor, hc⟩).2 ∧
        e.storeNumber = n ∧ e.storeIndex = s.cursor ∧
        st'.streams = replaceStream st.streams n { s with cursor := s.cursor + 1 } ∧
        st'.heap = st.heap ∧ st'.tagIndex = st.tagIndex := by
  cases hf : st.streams.find? (fun t => t.number == n) with
  | none => simp [ReaderState.getEventObject, hf] at h
  | some s =>
    cases hc : s.entries[s.cursor]? with
    | none => simp [ReaderState.getEventObject, hf, hc] at h
    | some entry =>
      simp only [ReaderState.getEventObject, hf, hc, Prod.mk.injEq,
        Option.some.injEq] at h
      obtain ⟨he, hst⟩ := h
      have hlt : s.cursor < s.entries.length := (List.getElem?_eq_some_iff.mp hc).1
      refine ⟨s, rfl, hlt, ?_, ?_, ?_, ?_, ?_, ?_, ?_⟩
      · rw [← he]
        have : s.entries[s.cursor] = entry := by
          have := List.getElem?_eq_some_iff.mp hc
          exact this.2
        simp [List.get_eq_getElem, this]
      · rw [← he]
        have : s.entries[s.cursor] = entry := (List.getElem?_eq_some_iff.mp hc).2
        simp [List.get_eq_getElem, this]
      · rw [← he]
      · rw [← he]
      · rw [← hst]
      · rw [← hst]
      · rw [← hst]

/-- What a `None` result of `_GetEventObject(stream_number)` means. -/
theorem getEventObject_none_spec {st : ReaderState} {n : Nat}
    {st' : ReaderState} (h : st.getEventObject n = (none, st')) :
    st' = st ∧
      ∀ s ∈ st.streams, (st.streams.map (·.number)).Nodup → s.number = n →
        s.entries.length ≤ s.cursor := by
  cases hf : st.streams.find? (fun t => t.number == n) with
  | none =>
    simp only [ReaderState.getEventObject, hf, Prod.mk.injEq] at h
    obtain ⟨-, h2⟩ := h
    refine ⟨h2.symm, ?_⟩
    intro s hs _ hsn
    exfalso
    have := List.find?_eq_none.mp hf s hs
    simp [hsn] at this
  | some s =>
    cases hc : s.entries[s.cursor]? with
    | none =>
      simp only [ReaderState.getEventObject, hf, hc, Prod.mk.injEq] at h
      obtain ⟨-, h2⟩ := h
      refine ⟨h2.symm, ?_⟩
      intro u hu hnd hun
      have hsmem : s ∈ st.streams := List.mem_of_find?_eq_some hf
      have hsn : s.number = n := by
        have := List.find?_some hf
        simpa using this
      have : u = s := mem_unique_number hnd hu hsmem (hun.trans hsn.symm)
      subst this
      exact List.getElem?_eq_none_iff.mp hc
    | some entry =>
      simp [ReaderState.getEventObject, hf, hc] at h

/-- Within a timestamp-sorted stream, entries are monotone in the
entry index. -/
theorem sorted_get_mono {l : List (Int × SBytes)}
    (h : List.Chain' (fun a b : Int × SBytes => a.1 ≤ b.1) l) :
    ∀ {i j : Nat} (hj : j < l.length) (hij : i ≤ j),
      (l.get ⟨i, Nat.lt_of_le_of_lt hij hj⟩).1 ≤ (l.get ⟨j, hj⟩).1 := by
  haveI : IsTrans (Int × SBytes) (fun a b => a.1 ≤ b.1) :=
    ⟨fun a b c hab hbc => le_trans hab hbc⟩
  have hp : List.Pairwise (fun a b : Int × SBytes => a.1 ≤ b.1) l := by
    rw [← List.chain'_iff_pairwise]
    exact h
  intro i j hj hij
  rcases Nat.eq_or_lt_of_le hij with he | hlt
  · subst he; exact le_refl _
  · exact List.pairwise_iff_get.mp hp ⟨i, Nat.lt_of_le_of_lt hij hj⟩ ⟨j, hj⟩ hlt

theorem sameTimestampLoop_spec (n : Nat) (pushIndex : MergeEvent → Nat) :
    ∀ (fuel : Nat) (ref : Int) (cur : MergeEvent) (st : ReaderState),
      (∀ s ∈ st.streams, List.Chain' (fun a b : Int × SBytes => a.1 ≤ b.1) s.entries) →
      (st.streams.map (·.number)).Nodup →
      (∀ h ∈ st.heap, h.timestamp = h.event.timestamp) →
      (∀ s ∈ st.streams, s.number = n → ∀ hc : s.cursor < s.entries.length,
          cur.timestamp ≤ (s.entries.get ⟨s.cursor, hc⟩).1) →
      (∃ h ∈ st.heap, h.streamNumber = n ∧ h.timestamp = cur.timestamp) →
      (∀ h ∈ st.heap, h ∈ (sameTimestampLoop n pushIndex fuel ref cur st).heap) ∧
      (∀ h ∈ (sameTimestampLoop n pushIndex fuel ref cur st).heap,
          h ∈ st.heap ∨ (h.streamNumber = n ∧ cur.timestamp ≤ h.timestamp)) ∧
      (∀ h ∈ (sameTimestampLoop n pushIndex fuel ref cur st).heap,
          h.timestamp = h.event.timestamp) ∧
      ((sameTimestampLoop n pushIndex fuel ref cur st).streams.map (·.number))
          = (st.streams.map (·.number)) ∧
      (∀ s ∈ (sameTimestampLoop n pushIndex fuel ref cur st).streams,
          List.Chain' (fun a b : Int × SBytes => a.1 ≤ b.1) s.entries) ∧
      (∀ s ∈ (sameTimestampLoop n pushIndex fuel ref cur st).streams,
          s.number ≠ n → s ∈ st.streams) ∧
      (∀ s ∈ (sameTimestampLoop n pushIndex fuel ref cur st).streams, s.number = n →
          ∀ hc : s.cursor < s.entries.length,
            ∃ h ∈ (sameTimestampLoop n pushIndex fuel ref cur st).heap,
              h.streamNumber = n ∧ h.timestamp ≤ (s.entries.get ⟨s.cursor, hc⟩).1)
  | 0, ref, cur, st => by
    intro hsorted hnd hwf hcur hself
    unfold sameTimestampLoop
    refine ⟨fun h hh => hh, fun h hh => Or.inl hh, hwf, rfl, hsorted,
      fun s hs _ => hs, ?_⟩
    intro s hs hsn hc
    obtain ⟨h0, hh0, hh0n, hh0t⟩ := hself
    exact ⟨h0, hh0, hh0n, by rw [hh0t]; exact hcur s hs hsn hc⟩
  | fuel + 1, ref, cur, st => by
    intro hsorted hnd hwf hcur hself
    unfold sameTimestampLoop
    by_cases hts : cur.timestamp = ref
    · rw [if_pos hts]
      cases hread : st.getEventObject n with
      | mk oe st' =>
        cases oe with
        | none =>
          simp only [hread]
          obtain ⟨hst', hexh⟩ := getEventObject_none_spec hread
          subst hst'
          refine ⟨fun h hh => hh, fun h hh => Or.inl hh, hwf, rfl, hsorted,
            fun s hs _ => hs, ?_⟩
          intro s hs hsn hc
          exact absurd hc (by have := hexh s hs hnd hsn; omega)
        | some e =>
          simp only [hread]
          obtain ⟨s, hf, hcs, hets, heds, hesn, hesi, hstreams', hheap', htag'⟩ :=
            getEventObject_some_spec hread
          have hs_mem : s ∈ st.streams := List.mem_of_find?_eq_some hf
          have hs_n : s.number = n := by simpa using List.find?_some hf
          have hcur_e : cur.timestamp ≤ e.timestamp := by
            rw [hets]
            exact hcur s hs_mem hs_n hcs
          have hupd_mem : ({ s with cursor := s.cursor + 1 } : ReaderStream) ∈
              (replaceStream st.streams n { s with cursor := s.cursor + 1 }) :=
            mem_replaceStream_self hf
          have hmapeq : ((replaceStream st.streams n
                { s with cursor := s.cursor + 1 }).map (·.number))
              = st.streams.map (·.number) :=
            replaceStream_map_number _ _ hs_n
          have hsorted'' : ∀ t ∈ ({ st' with
                heap := pushHeapEvent st'.heap e n (pushIndex e) } : ReaderState).streams,
              List.Chain' (fun a b : Int × SBytes => a.1 ≤ b.1) t.entries := by
            intro t ht
            simp only [hstreams'] at ht
            rcases replaceStream_mem ht with ht | ht
            · subst ht
              exact hsorted s hs_mem
            · exact hsorted t ht
          have hnd'' : ((({ st' with
                heap := pushHeapEvent st'.heap e n (pushIndex e) } : ReaderState)).streams.map
                  (·.number)).Nodup := by
            simp only [hstreams']
            rw [hmapeq]
            exact hnd
          have hwf'' : ∀ h ∈ ({ st' with
                heap := pushHeapEvent st'.heap e n (pushIndex e) } : ReaderState).heap,
              h.timestamp = h.event.timestamp := by
            intro h hh
            simp only [pushHeapEvent] at hh
            rcases List.mem_cons.mp hh with hh | hh
            · subst hh; rfl
            · rw [hheap'] at hh
              exact hwf h hh
          have hcur'' : ∀ t ∈ ({ st' with
                heap := pushHeapEvent st'.heap e n (pushIndex e) } : ReaderState).streams,
              t.number = n → ∀ hc : t.cursor < t.entries.length,
                e.timestamp ≤ (t.entries.get ⟨t.cursor, hc⟩).1 := by
            intro t ht htn hc
            have hteq : t = { s with cursor := s.cursor + 1 } := by
              apply mem_unique_number hnd'' (by simpa only [hstreams'] using ht)
                (by simpa only [hstreams'] using hupd_mem)
              rw [htn]
              exact hs_n.symm
            subst hteq
            simp only at hc ⊢
            rw [hets]
            exact sorted_get_mono (hsorted s hs_mem) hc (Nat.le_succ _)
          have hself'' : ∃ h ∈ ({ st' with
                heap := pushHeapEvent st'.heap e n (pushIndex e) } : ReaderState).heap,
              h.streamNumber = n ∧ h.timestamp = e.timestamp := by
            refine ⟨⟨e.timestamp, n, pushIndex e, e⟩, ?_, rfl, rfl⟩
            simp [pushHeapEvent]
          obtain ⟨c1, c2, c3, c4, c5, c6, c7⟩ :=
            sameTimestampLoop_spec n pushIndex fuel ref e
              { st' with heap := pushHeapEvent st'.heap e n (pushIndex e) }
              hsorted'' hnd'' hwf'' hcur'' hself''
          refine ⟨?_, ?_, c3, ?_, c5, ?_, c7⟩
          · intro h hh
            apply c1
            simp only [pushHeapEvent]
            exact List.mem_cons_of_mem _ (hheap' ▸ hh)
          · intro h hh
            rcases c2 h hh with hh' | hh'
            · simp only [pushHeapEvent] at hh'
              rcases List.mem_cons.mp hh' with hh' | hh'
              · subst hh'
                exact Or.inr ⟨rfl, hcur_e⟩
              · exact Or.inl (hheap' ▸ hh')
            · exact Or.inr ⟨hh'.1, le_trans hcur_e hh'.2⟩
          · rw [c4]
            simp only [hstreams']
            exact hmapeq
          · intro t ht htn
            have := c6 t ht htn
            simp only [hstreams'] at this
            rcases replaceStream_mem this with h' | h'
            · exact absurd (by rw [h']; exact hs_n : t.number = n) htn
            · exact h'
    · rw [if_neg hts]
      refine ⟨fun h hh => hh, fun h hh => Or.inl hh, hwf, rfl, hsorted,
        fun s hs _ => hs, ?_⟩
      intro s hs hsn hc
      obtain ⟨h0, hh0, hh0n, hh0t⟩ := hself
      exact ⟨h0, hh0, hh0n, by rw [hh0t]; exact hcur s hs hsn hc⟩

/-- All reader streams hold timestamp-sorted entries. -/
def StreamsSorted (st : ReaderState) : Prop :=
  ∀ s ∈ st.streams, List.Chain' (fun a b : Int × SBytes => a.1 ≤ b.1) s.entries

/-- Every heap tuple's first component is its event's timestamp. -/
def HeapWF (st : ReaderState) : Prop :=
  ∀ h ∈ st.heap, h.timestamp = h.event.timestamp

/-- The stream with the given number (when it has unread entries) is
represented on the merge heap by an entry at or below its next unread
timestamp. -/
def CoverageFor (st : ReaderState) (n : Nat) : Prop :=
  ∀ s ∈ st.streams, s.number = n → ∀ hc : s.cursor < s.entries.length,
    ∃ h ∈ st.heap, h.streamNumber = s.number ∧
      h.timestamp ≤ (s.entries.get ⟨s.cursor, hc⟩).1

/-- The merge reader's invariant between `_GetSortedEvent` calls. -/
def ReaderInv (st : ReaderState) : Prop :=
  StreamsSorted st ∧ (st.streams.map (·.number)).Nodup ∧ HeapWF st ∧
    ∀ m, CoverageFor st m

theorem initStream_none_spec (st : ReaderState) (n : Nat)
    (hsorted : StreamsSorted st) (hnd : (st.streams.map (·.number)).Nodup)
    (hwf : HeapWF st) :
    ∃ st2, initStream none st n = .ok st2 ∧
      (∀ h ∈ st.heap, h ∈ st2.heap) ∧ HeapWF st2 ∧
      (st2.streams.map (·.number)) = st.streams.map (·.number) ∧
      StreamsSorted st2 ∧
      (∀ s ∈ st2.streams, s.number ≠ n → s ∈ st.streams) ∧
      CoverageFor st2 n := by
  refine ⟨initStreamRead st n none none, rfl, ?_⟩
  unfold initStreamRead
  cases hread : st.getEventObject n with
  | mk oe st' =>
    cases oe with
    | none =>
      obtain ⟨hst', hexh⟩ := getEventObject_none_spec hread
      subst hst'
      simp only [hread]
      refine ⟨fun h hh => hh, hwf, by simp, hsorted, fun s hs _ => hs, ?_⟩
      intro s hs hsn hc
      exact absurd hc (by have := hexh s hs hnd hsn; omega)
    | some e =>
      simp only [hread]
      obtain ⟨s, hf, hcs, hets, heds, hesn, hesi, hstreams', hheap', htag'⟩ :=
        getEventObject_some_spec hread
      have hs_mem : s ∈ st.streams := List.mem_of_find?_eq_some hf
      have hs_n : s.number = n := by simpa using List.find?_some hf
      have hupd_mem : ({ s with cursor := s.cursor + 1 } : ReaderStream) ∈
          (replaceStream st.streams n { s with cursor := s.cursor + 1 }) :=
        mem_replaceStream_self hf
      have hmapeq : ((replaceStream st.streams n
            { s with cursor := s.cursor + 1 }).map (·.number))
          = st.streams.map (·.number) :=
        replaceStream_map_number _ _ hs_n
      have hsorted'' : ∀ t ∈ ({ st' with
            heap := pushHeapEvent st'.heap e n e.storeNumber } : ReaderState).streams,
          List.Chain' (fun a b : Int × SBytes => a.1 ≤ b.1) t.entries := by
        intro t ht
        simp only [hstreams'] at ht
        rcases replaceStream_mem ht with ht | ht
        · subst ht
          exact hsorted s hs_mem
        · exact hsorted t ht
      have hnd'' : ((({ st' with
            heap := pushHeapEvent st'.heap e n e.storeNumber } : ReaderState)).streams.map
              (·.number)).Nodup := by
        simp only [hstreams']
        rw [hmapeq]
        exact hnd
      have hwf'' : ∀ h ∈ ({ st' with
            heap := pushHeapEvent st'.heap e n e.storeNumber } : ReaderState).heap,
          h.timestamp = h.event.timestamp := by
        intro h hh
        simp only [pushHeapEvent] at hh
        rcases List.mem_cons.mp hh with hh | hh
        · subst hh; rfl
        · rw [hheap'] at hh
          exact hwf h hh
      have hcur'' : ∀ t ∈ ({ st' with
            heap := pushHeapEvent st'.heap e n e.storeNumber } : ReaderState).streams,
          t.number = n → ∀ hc : t.cursor < t.entries.length,
            e.timestamp ≤ (t.entries.get ⟨t.cursor, hc⟩).1 := by
        intro t ht htn hc
        have hteq : t = { s with cursor := s.cursor + 1 } := by
          apply mem_unique_number hnd'' (by simpa only [hstreams'] using ht)
            (by simpa only [hstreams'] using hupd_mem)
          rw [htn]
          exact hs_n.symm
        subst hteq
        simp only at hc ⊢
        rw [hets]
        exact sorted_get_mono (hsorted s hs_mem) hc (Nat.le_succ _)
      have hself'' : ∃ h ∈ ({ st' with
            heap := pushHeapEvent st'.heap e n e.storeNumber } : ReaderState).heap,
          h.streamNumber = n ∧ h.timestamp = e.timestamp := by
        refine ⟨⟨e.timestamp, n, e.storeNumber, e⟩, ?_, rfl, rfl⟩
        simp [pushHeapEvent]
      obtain ⟨c1, c2, c3, c4, c5, c6, c7⟩ :=
        sameTimestampLoop_spec n (fun e => e.storeNumber)
          (({ st' with heap := pushHeapEvent st'.heap e n e.storeNumber } :
            ReaderState).remaining + 1)
          e.timestamp e
          { st' with heap := pushHeapEvent st'.heap e n e.storeNumber }
          hsorted'' hnd'' hwf'' hcur'' hself''
      rw [initGroupLoop]
      refine ⟨?_, c3, ?_, c5, ?_, ?_⟩
      · intro h hh
        apply c1
        simp only [pushHeapEvent]
        exact List.mem_cons_of_mem _ (hheap' ▸ hh)
      · rw [c4]
        simp only [hstreams']
        exact hmapeq
      · intro t ht htn
        have := c6 t ht htn
        simp only [hstreams'] at this
        rcases replaceStream_mem this with h' | h'
        · exact absurd (by rw [h']; exact hs_n : t.number = n) htn
        · exact h'
      · intro t ht htn hc
        obtain ⟨h0, hh0, hh0n, hh0le⟩ := c7 t ht htn hc
        exact ⟨h0, hh0, by rw [hh0n, htn], hh0le⟩

theorem initializeMergeBuffer_none_spec :
    ∀ (ns : List Nat) (st : ReaderState),
      StreamsSorted st → (st.streams.map (·.number)).Nodup → HeapWF st →
      ∃ st2, initializeMergeBuffer none st ns = .ok st2 ∧
        (∀ h ∈ st.heap, h ∈ st2.heap) ∧ HeapWF st2 ∧
        (st2.streams.map (·.number)) = st.streams.map (·.number) ∧
        StreamsSorted st2 ∧
        (∀ m, CoverageFor st m → CoverageFor st2 m) ∧
        (∀ m ∈ ns, CoverageFor st2 m)
  | [], st, hsorted, hnd, hwf =>
    ⟨st, rfl, fun h hh => hh, hwf, rfl, hsorted, fun _ hm => hm, by simp⟩
  | n :: ns, st, hsorted, hnd, hwf => by
    obtain ⟨st1, hok, c1, c2, c3, c4, c5, c6⟩ :=
      initStream_none_spec st n hsorted hnd hwf
    have hnd1 : (st1.streams.map (·.number)).Nodup := by rw [c3]; exact hnd
    obtain ⟨st2, hok2, d1, d2, d3, d4, d5, d6⟩ :=
      initializeMergeBuffer_none_spec ns st1 c4 hnd1 c2
    have hpres : ∀ m, CoverageFor st m → CoverageFor st1 m := by
      intro m hcov s hs hsn hc
      by_cases hmn : m = n
      · subst hmn
        exact c6 s hs hsn hc
      · have hs' : s ∈ st.streams := c5 s hs (by rw [hsn]; exact hmn)
        obtain ⟨h0, hh0, hh0n, hh0le⟩ := hcov s hs' hsn hc
        exact ⟨h0, c1 h0 hh0, hh0n, hh0le⟩
    refine ⟨st2, ?_, ?_, d2, d3.trans c3, d4, ?_, ?_⟩
    · unfold initializeMergeBuffer
      rw [hok]
      exact hok2
    · intro h hh
      exact d1 h (c1 h hh)
    · intro m hm
      exact d5 m (hpres m hm)
    · intro m hm
      rcases List.mem_cons.mp hm with hm | hm
      · subst hm
        exact d5 m c6
      · exact d6 m hm

theorem insertSortedNat_perm (x : Nat) : ∀ l : List Nat, (insertSortedNat x l).Perm (x :: l)
  | [] => List.Perm.refl _
  | y :: ys => by
    unfold insertSortedNat
    by_cases h : x ≤ y
    · rw [if_pos h]
    · rw [if_neg h]
      exact ((insertSortedNat_perm x ys).cons y).trans (List.Perm.swap x y ys)

theorem sortNats_perm : ∀ l : List Nat, (sortNats l).Perm l
  | [] => List.Perm.refl _
  | x :: xs => by
    unfold sortNats
    simp only [List.foldr_cons]
    exact (insertSortedNat_perm x _).trans ((sortNats_perm xs).cons x)

theorem getSortedEvent_none_some {st : ReaderState} {e : MergeEvent}
    {st2 : ReaderState} (hinv : ReaderInv st)
    (h : getSortedEvent none st = (some e, st2)) :
    ReaderInv st2 ∧
      (∀ b : Int, (∀ y ∈ st.heap, b ≤ y.timestamp) → b ≤ e.timestamp) ∧
      (∀ y ∈ st2.heap, e.timestamp ≤ y.timestamp) := by
  obtain ⟨hsorted, hnd, hwf, hcov⟩ := hinv
  cases hpop : popMinBy heapEntryLt st.heap with
  | none =>
    have hph : popHeapEvent st.heap = (none, st.heap) := by
      unfold popHeapEvent; rw [hpop]
    unfold getSortedEvent at h
    rw [hph] at h
    simp at h
  | some p =>
    cases p with
    | mk m rest =>
      have hph : popHeapEvent st.heap = (some (m.event, m.streamNumber), rest) := by
        unfold popHeapEvent; rw [hpop]
      unfold getSortedEvent at h
      rw [hph] at h
      simp only [Prod.mk.injEq, Option.some.injEq] at h
      obtain ⟨he, hst2⟩ := h
      have hmmem : m ∈ st.heap := (popMinBy_perm hpop).mem_iff.mpr (List.mem_cons_self _ _)
      have hmin : ∀ y ∈ st.heap, m.timestamp ≤ y.timestamp := fun y hy =>
        heapEntryLt_min_ts (popMinBy_min heapEntryLt_asymm heapEntryLt_negtrans hpop y hy)
      have hrest_sub : ∀ y ∈ rest, y ∈ st.heap := fun y hy =>
        (popMinBy_perm hpop).mem_iff.mpr (List.mem_cons_of_mem m hy)
      have hets : e.timestamp = m.timestamp := by
        rw [← he]
        exact (hwf m hmmem).symm
      have hebound : ∀ b : Int, (∀ y ∈ st.heap, b ≤ y.timestamp) → b ≤ e.timestamp := by
        intro b hb
        rw [hets]
        exact hb m hmmem
      -- analyze the refill
      set st1 : ReaderState := { st with heap := rest } with hst1
      cases hread : st1.getEventObject m.streamNumber with
      | mk oe st1' =>
        cases oe with
        | none =>
          obtain ⟨hst1', hexh⟩ := getEventObject_none_spec hread
          have hst2' : st2 = st1 := by
            rw [← hst2]
            unfold refill
            rw [hread, hst1']
          subst hst2'
          refine ⟨⟨hsorted, hnd, ?_, ?_⟩, hebound, ?_⟩
          · intro y hy
            exact hwf y (hrest_sub y hy)
          · intro m' s hs hsn hc
            by_cases hm'n : m' = m.streamNumber
            · exact absurd hc (by
                have := hexh s hs hnd (by rw [hsn, hm'n])
                omega)
            · obtain ⟨h0, hh0, hh0n, hh0le⟩ := hcov m' s hs hsn hc
              have hh0rest : h0 ∈ rest := by
                have := (popMinBy_perm hpop).mem_iff.mp hh0
                rcases List.mem_cons.mp this with h' | h'
                · exact absurd (by rw [← h', hh0n, hsn] : m.streamNumber = m') (Ne.symm hm'n)
                · exact h'
              exact ⟨h0, hh0rest, hh0n, hh0le⟩
          · intro y hy
            rw [hets]
            exact hmin y (hrest_sub y hy)
        | some nextEvent =>
          obtain ⟨s, hf, hcs, hets2, heds2, hesn2, hesi2, hstreams', hheap', htag'⟩ :=
            getEventObject_some_spec hread
          have hs_mem : s ∈ st.streams := List.mem_of_find?_eq_some hf
          have hs_n : s.number = m.streamNumber := by simpa using List.find?_some hf
          -- the stream's coverage witness bounds the next event from below
          obtain ⟨h0, hh0, hh0n, hh0le⟩ := hcov m.streamNumber s hs_mem hs_n hcs
          have hm_next : m.timestamp ≤ nextEvent.timestamp := by
            rw [hets2]
            exact le_trans (hmin h0 hh0) hh0le
          have hupd_mem : ({ s with cursor := s.cursor + 1 } : ReaderStream) ∈
              (replaceStream st.streams m.streamNumber { s with cursor := s.cursor + 1 }) :=
            mem_replaceStream_self hf
          have hmapeq : ((replaceStream st.streams m.streamNumber
                { s with cursor := s.cursor + 1 }).map (·.number))
              = st.streams.map (·.number) :=
            replaceStream_map_number _ _ hs_n
          set stP : ReaderState := { st1' with
            heap := pushHeapEvent st1'.heap nextEvent m.streamNumber m.event.storeIndex }
            with hstP
          have hst2' : st2 = sameTimestampLoop m.streamNumber (fun _ => m.event.storeIndex)
              (stP.remaining + 1) nextEvent.timestamp nextEvent stP := by
            rw [← hst2]
            unfold refill refillGroupLoop
            rw [hread, hstP]
          have hsorted'' : ∀ t ∈ stP.streams,
              List.Chain' (fun a b : Int × SBytes => a.1 ≤ b.1) t.entries := by
            intro t ht
            simp only [hstP, hstreams'] at ht
            rcases replaceStream_mem ht with ht | ht
            · subst ht
              exact hsorted s hs_mem
            · exact hsorted t ht
          have hnd'' : ((stP.streams.map (·.number))).Nodup := by
            simp only [hstP, hstreams']
            rw [hmapeq]
            exact hnd
          have hwf'' : ∀ y ∈ stP.heap, y.timestamp = y.event.timestamp := by
            intro y hy
            simp only [hstP, pushHeapEvent] at hy
            rcases List.mem_cons.mp hy with hy | hy
            · subst hy; rfl
            · rw [hheap'] at hy
              exact hwf y (hrest_sub y hy)
          have hcur'' : ∀ t ∈ stP.streams, t.number = m.streamNumber →
              ∀ hc : t.cursor < t.entries.length,
                nextEvent.timestamp ≤ (t.entries.get ⟨t.cursor, hc⟩).1 := by
            intro t ht htn hc
            have hteq : t = { s with cursor := s.cursor + 1 } := by
              apply mem_unique_number hnd'' (by simpa only [hstP, hstreams'] using ht)
                (by simpa only [hstP, hstreams'] using hupd_mem)
              rw [htn]
              exact hs_n.symm
            subst hteq
            simp only at hc ⊢
            rw [hets2]
            exact sorted_get_mono (hsorted s hs_mem) hc (Nat.le_succ _)
          have hself'' : ∃ y ∈ stP.heap, y.streamNumber = m.streamNumber ∧
              y.timestamp = nextEvent.timestamp := by
            refine ⟨⟨nextEvent.timestamp, m.streamNumber, m.event.storeIndex, nextEvent⟩,
              ?_, rfl, rfl⟩
            simp [hstP, pushHeapEvent]
          obtain ⟨c1, c2, c3, c4, c5, c6, c7⟩ :=
            sameTimestampLoop_spec m.streamNumber (fun _ => m.event.storeIndex)
              (stP.remaining + 1) nextEvent.timestamp nextEvent stP
              hsorted'' hnd'' hwf'' hcur'' hself''
          rw [← hst2'] at c1 c2 c3 c4 c5 c6 c7
          refine ⟨⟨c5, ?_, c3, ?_⟩, hebound, ?_⟩
          · rw [c4]
            simp only [hstP, hstreams']
            rw [hmapeq]
            exact hnd
          · intro m' t ht htn hc
            by_cases hm'n : m' = m.streamNumber
            · subst hm'n
              obtain ⟨y, hy, hyn, hyle⟩ := c7 t ht (htn.trans rfl) hc
              exact ⟨y, hy, by rw [hyn, htn], hyle⟩
            · have ht' : t ∈ st.streams := by
                have := c6 t ht (by rw [htn]; exact hm'n)
                simp only [hstP, hstreams'] at this
                rcases replaceStream_mem this with h' | h'
                · exact absurd (by rw [h']; exact hs_n : t.number = m.streamNumber)
                    (by rw [htn]; exact hm'n)
                · exact h'
              obtain ⟨h1, hh1, hh1n, hh1le⟩ := hcov m' t ht' htn hc
              have hh1rest : h1 ∈ rest := by
                have := (popMinBy_perm hpop).mem_iff.mp hh1
                rcases List.mem_cons.mp this with h' | h'
                · exact absurd (by rw [← h', hh1n, htn] : m.streamNumber = m')
                    (Ne.symm hm'n)
                · exact h'
              have hh1P : h1 ∈ stP.heap := by
                simp only [hstP, pushHeapEvent]
                apply List.mem_cons_of_mem
                rw [hheap']
                exact hh1rest
              exact ⟨h1, c1 h1 hh1P, hh1n, hh1le⟩
          · intro y hy
            rw [hets]
            rcases c2 y hy with hy' | hy'
            · simp only [hstP, pushHeapEvent] at hy'
              rcases List.mem_cons.mp hy' with hy' | hy'
              · subst hy'
                exact hm_next
              · rw [hheap'] at hy'
                exact hmin y (hrest_sub y hy')
            · exact le_trans hm_next hy'.2

theorem getEventsLoop_none_sorted :
    ∀ (fuel : Nat) (st : ReaderState), ReaderInv st →
      List.Chain' (fun a b : MergeEvent => a.timestamp ≤ b.timestamp)
        (getEventsLoop none fuel st) ∧
      (∀ b : Int, (∀ y ∈ st.heap, b ≤ y.timestamp) →
        ∀ e ∈ (getEventsLoop none fuel st).head?, b ≤ e.timestamp)
  | 0, st, hinv => ⟨by simp [getEventsLoop], by simp [getEventsLoop]⟩
  | fuel + 1, st, hinv => by
    unfold getEventsLoop
    cases hse : getSortedEvent none st with
    | mk oe st' =>
      cases oe with
      | none => simp
      | some e =>
        obtain ⟨hinv', hlow, hhigh⟩ := getSortedEvent_none_some hinv hse
        obtain ⟨ih1, ih2⟩ := getEventsLoop_none_sorted fuel st' hinv'
        constructor
        · rw [List.chain'_cons']
          exact ⟨fun y hy => ih2 e.timestamp hhigh y hy, ih1⟩
        · intro b hb e' he'
          simp only [List.head?_cons, Option.mem_def, Option.some.injEq] at he'
          subst he'
          exact hlow b hb

theorem getEvents_none_sorted {st : ZIPStorageFile} (hsi : StreamsInv st) :
    ∃ out, st.getEvents none = .ok out ∧
      List.Chain' (fun a b : MergeEvent => a.timestamp ≤ b.timestamp) out := by
  obtain ⟨hs1, hs2⟩ := hsi
  have hmap : (st.openReadOnly.streams.map (·.number)) = st.eventStreams.map (·.number) := by
    unfold ZIPStorageFile.openReadOnly
    simp [List.map_map]
  have hsorted : StreamsSorted st.openReadOnly := by
    intro s hs
    unfold ZIPStorageFile.openReadOnly at hs
    simp only [List.mem_map] at hs
    obtain ⟨g, hg, hgs⟩ := hs
    rw [← hgs]
    exact hs1 g hg
  have hnd : (st.openReadOnly.streams.map (·.number)).Nodup := by
    rw [hmap]
    exact hs2.imp (fun h => Nat.ne_of_lt h)
  have hwf : HeapWF st.openReadOnly := by
    intro y hy
    unfold ZIPStorageFile.openReadOnly at hy
    simp at hy
  obtain ⟨st2, hok2, d1, d2, d3, d4, d5, d6⟩ :=
    initializeMergeBuffer_none_spec st.sortedEventStreamNumbers st.openReadOnly
      hsorted hnd hwf
  have hcovAll : ∀ m, CoverageFor st2 m := by
    intro m s hs hsn hc
    have hm_ns : m ∈ st.sortedEventStreamNumbers := by
      apply (sortNats_perm _).mem_iff.mpr
      rw [← hsn]
      have : s.number ∈ st2.streams.map (·.number) := List.mem_map_of_mem (·.number) hs
      rw [d3, hmap] at this
      exact this
    exact d6 m hm_ns s hs hsn hc
  have hinv2 : ReaderInv st2 := ⟨d4, by rw [d3]; exact hnd, d2, hcovAll⟩
  refine ⟨getEventsLoop none (st2.remaining + st2.heap.length + 1) st2, ?_, ?_⟩
  · unfold ZIPStorageFile.getEvents
    dsimp only
    rw [hok2]
  · exact (getEventsLoop_none_sorted _ st2 hinv2).1

/-- Claim C1's pipeline property, over every sequence of `AddEvent`
calls and every maximum buffer size. -/
theorem eventsRoundTrip_sorted (adds : List (Int × SBytes)) (maximumBufferSize : Nat) :
    ∃ out, eventsRoundTrip adds maximumBufferSize none = .ok out ∧
      List.Chain' (fun a b : MergeEvent => a.timestamp ≤ b.timestamp) out := by
  obtain ⟨st1, hok1, hinv1⟩ :=
    runAddEvents_writerInv adds (ZIPStorageFile.freshWritable maximumBufferSize)
      (writerInv_fresh maximumBufferSize)
  obtain ⟨st2, hok2, hsi⟩ := close_streamsInv hinv1
  obtain ⟨out, hok3, hchain⟩ := getEvents_none_sorted hsi
  refine ⟨out, ?_, hchain⟩
  unfold eventsRoundTrip
  rw [hok1]
  simp only [Except.bind]
  rw [hok2]
  simp only []
  rw [hok3]

/-!
### Records preserved by flushes and appended by `Add*`

The lemmas feeding the merge property: each flush repartitions a kind's
records between its finalized streams and its buffer without losing or
inventing any, and each `Add*` call appends exactly its record to that
kind's contained records while leaving every other kind untouched.
-/

theorem writeSerializedErrors_contained (st : ZIPStorageFile) :
    (writeSerializedErrors st).containedErrors = st.containedErrors ∧
    (writeSerializedErrors st).containedEvents = st.containedEvents ∧
    (writeSerializedErrors st).containedEventSources = st.containedEventSources ∧
    (writeSerializedErrors st).containedEventTags = st.containedEventTags ∧
    (writeSerializedErrors st).containedAnalysisReports = st.containedAnalysisReports ∧
    (writeSerializedErrors st).isOpen = st.isOpen ∧
    (writeSerializedErrors st).readOnly = st.readOnly ∧
    (writeSerializedErrors st).maximumBufferSize = st.maximumBufferSize := by
  unfold writeSerializedErrors
  split
  · exact ⟨rfl, rfl, rfl, rfl, rfl, rfl, rfl, rfl⟩
  · refine ⟨?_, rfl, rfl, rfl, rfl, rfl, rfl, rfl⟩
    simp [ZIPStorageFile.containedErrors, AttributeContainersList.emptyList]

theorem writeSerializedEventSources_contained (st : ZIPStorageFile) :
    (writeSerializedEventSources st).containedErrors = st.containedErrors ∧
    (writeSerializedEventSources st).containedEvents = st.containedEvents ∧
    (writeSerializedEventSources st).containedEventSources = st.containedEventSources ∧
    (writeSerializedEventSources st).containedEventTags = st.containedEventTags ∧
    (writeSerializedEventSources st).containedAnalysisReports = st.containedAnalysisReports ∧
    (writeSerializedEventSources st).isOpen = st.isOpen ∧
    (writeSerializedEventSources st).readOnly = st.readOnly ∧
    (writeSerializedEventSources st).maximumBufferSize = st.maximumBufferSize := by
  unfold writeSerializedEventSources
  split
  · exact ⟨rfl, rfl, rfl, rfl, rfl, rfl, rfl, rfl⟩
  · refine ⟨rfl, rfl, ?_, rfl, rfl, rfl, rfl, rfl⟩
    simp [ZIPStorageFile.containedEventSources, AttributeContainersList.emptyList]

theorem writeSerializedEvents_contained (st : ZIPStorageFile) :
    (writeSerializedEvents st).containedErrors = st.containedErrors ∧
    (writeSerializedEvents st).containedEvents.Perm st.containedEvents ∧
    (writeSerializedEvents st).containedEventSources = st.containedEventSources ∧
    (writeSerializedEvents st).containedEventTags = st.containedEventTags ∧
    (writeSerializedEvents st).containedAnalysisReports = st.containedAnalysisReports ∧
    (writeSerializedEvents st).isOpen = st.isOpen ∧
    (writeSerializedEvents st).readOnly = st.readOnly ∧
    (writeSerializedEvents st).maximumBufferSize = st.maximumBufferSize := by
  unfold writeSerializedEvents
  split
  · exact ⟨rfl, List.Perm.refl _, rfl, rfl, rfl, rfl, rfl, rfl⟩
  · refine ⟨rfl, ?_, rfl, rfl, rfl, rfl, rfl, rfl⟩
    simp only [ZIPStorageFile.containedEvents, SerializedEventsHeap.emptyHeap,
      List.map_append, List.flatten_append, List.map_cons, List.map_nil,
      List.flatten_cons, List.flatten_nil, List.append_nil]
    exact List.Perm.append_left _ (popAll_perm _ _)

theorem writeSerializedEventTags_contained (st : ZIPStorageFile) :
    (writeSerializedEventTags st).containedErrors = st.containedErrors ∧
    (writeSerializedEventTags st).containedEvents = st.containedEvents ∧
    (writeSerializedEventTags st).containedEventSources = st.containedEventSources ∧
    (writeSerializedEventTags st).containedEventTags.Perm st.containedEventTags ∧
    (writeSerializedEventTags st).containedAnalysisReports = st.containedAnalysisReports ∧
    (writeSerializedEventTags st).isOpen = st.isOpen ∧
    (writeSerializedEventTags st).readOnly = st.readOnly ∧
    (writeSerializedEventTags st).maximumBufferSize = st.maximumBufferSize := by
  unfold writeSerializedEventTags
  split
  · exact ⟨rfl, rfl, rfl, List.Perm.refl _, rfl, rfl, rfl, rfl⟩
  · refine ⟨rfl, rfl, rfl, ?_, rfl, rfl, rfl, rfl⟩
    simp only [ZIPStorageFile.containedEventTags,
      List.map_append, List.flatten_append, List.map_cons, List.map_nil,
      List.flatten_cons, List.flatten_nil, List.append_nil]
    exact List.Perm.append_left _ (popAll_perm _ _)

theorem ZIPStorageFile.addError_contained (st : ZIPStorageFile) (d : SBytes) :
    ∃ st', st.addError d = .ok st' ∧
      st'.containedErrors = st.containedErrors ++ [d] ∧
      st'.containedEvents = st.containedEvents ∧
      st'.containedEventSources = st.containedEventSources ∧
      st'.containedEventTags = st.containedEventTags ∧
      st'.containedAnalysisReports = st.containedAnalysisReports ∧
      st'.isOpen = st.isOpen ∧ st'.readOnly = st.readOnly ∧
      st'.maximumBufferSize = st.maximumBufferSize := by
  unfold ZIPStorageFile.addError
  dsimp only
  split
  · obtain ⟨h1, h2, h3, h4, h5, h6, h7, h8⟩ :=
      writeSerializedErrors_contained
        { st with errorsList := st.errorsList.pushAttributeContainer d }
    refine ⟨_, rfl, ?_, h2, h3, h4, h5, h6, h7, h8⟩
    rw [h1]
    simp [ZIPStorageFile.containedErrors, AttributeContainersList.pushAttributeContainer]
  · refine ⟨_, rfl, ?_, rfl, rfl, rfl, rfl, rfl, rfl, rfl⟩
    simp [ZIPStorageFile.containedErrors, AttributeContainersList.pushAttributeContainer]

theorem ZIPStorageFile.addEvent_contained (st : ZIPStorageFile) (ts : Int) (d : SBytes)
    (hopen : st.isOpen = true) (hro : st.readOnly = false) :
    ∃ st', st.addEvent ts d = .ok st' ∧
      st'.containedErrors = st.containedErrors ∧
      st'.containedEvents.Perm (st.containedEvents ++ [(ts, d)]) ∧
      st'.containedEventSources = st.containedEventSources ∧
      st'.containedEventTags = st.containedEventTags ∧
      st'.containedAnalysisReports = st.containedAnalysisReports ∧
      st'.isOpen = st.isOpen ∧ st'.readOnly = st.readOnly ∧
      st'.maximumBufferSize = st.maximumBufferSize := by
  have hpush : ({ st with serializedEventsHeap :=
        st.serializedEventsHeap.pushEvent ts d } : ZIPStorageFile).containedEvents.Perm
      (st.containedEvents ++ [(ts, d)]) := by
    simp only [ZIPStorageFile.containedEvents, SerializedEventsHeap.pushEvent]
    rw [List.append_assoc]
    exact List.Perm.append_left _ (List.perm_append_singleton _ _).symm
  unfold ZIPStorageFile.addEvent
  rw [if_neg (show ¬((!st.isOpen) = true) by simp [hopen])]
  rw [if_neg (show ¬(st.readOnly = true) by simp [hro])]
  dsimp only
  split
  · obtain ⟨h1, h2, h3, h4, h5, h6, h7, h8⟩ :=
      writeSerializedEvents_contained
        { st with serializedEventsHeap := st.serializedEventsHeap.pushEvent ts d }
    exact ⟨_, rfl, h1, h2.trans hpush, h3, h4, h5, h6, h7, h8⟩
  · exact ⟨_, rfl, rfl, hpush, rfl, rfl, rfl, rfl, rfl, rfl⟩

theorem ZIPStorageFile.addEventSource_contained (st : ZIPStorageFile) (d : SBytes)
    (hopen : st.isOpen = true) (hro : st.readOnly = false) :
    ∃ st', st.addEventSource d = .ok st' ∧
      st'.containedErrors = st.containedErrors ∧
      st'.containedEvents = st.containedEvents ∧
      st'.containedEventSources = st.containedEventSources ++ [d] ∧
      st'.containedEventTags = st.containedEventTags ∧
      st'.containedAnalysisReports = st.containedAnalysisReports ∧
      st'.isOpen = st.isOpen ∧ st'.readOnly = st.readOnly ∧
      st'.maximumBufferSize = st.maximumBufferSize := by
  unfold ZIPStorageFile.addEventSource
  rw [if_neg (show ¬((!st.isOpen) = true) by simp [hopen])]
  rw [if_neg (show ¬(st.readOnly = true) by simp [hro])]
  dsimp only
  split
  · obtain ⟨h1, h2, h3, h4, h5, h6, h7, h8⟩ :=
      writeSerializedEventSources_contained
        { st with eventSourcesList := st.eventSourcesList.pushAttributeContainer d }
    refine ⟨_, rfl, h1, h2, ?_, h4, h5, h6, h7, h8⟩
    rw [h3]
    simp [ZIPStorageFile.containedEventSources, AttributeContainersList.pushAttributeContainer]
  · refine ⟨_, rfl, rfl, rfl, ?_, rfl, rfl, rfl, rfl, rfl⟩
    simp [ZIPStorageFile.containedEventSources, AttributeContainersList.pushAttributeContainer]

theorem ZIPStorageFile.addEventTag_contained (st : ZIPStorageFile) (tag : SerializedEventTag)
    (hopen : st.isOpen = true) (hro : st.readOnly = false) :
    ∃ st', st.addEventTag tag = .ok st' ∧
      st'.containedErrors = st.containedErrors ∧
      st'.containedEvents = st.containedEvents ∧
      st'.containedEventSources = st.containedEventSources ∧
      st'.containedEventTags.Perm (st.containedEventTags ++ [tag]) ∧
      st'.containedAnalysisReports = st.containedAnalysisReports ∧
      st'.isOpen = st.isOpen ∧ st'.readOnly = st.readOnly ∧
      st'.maximumBufferSize = st.maximumBufferSize := by
  have hpush : ({ st with
        serializedEventTags := tag :: st.serializedEventTags
        serializedEventTagsSize := st.serializedEventTagsSize + tag.data.length } :
        ZIPStorageFile).containedEventTags.Perm (st.containedEventTags ++ [tag]) := by
    simp only [ZIPStorageFile.containedEventTags]
    rw [List.append_assoc]
    exact List.Perm.append_left _ (List.perm_append_singleton _ _).symm
  unfold ZIPStorageFile.addEventTag
  rw [if_neg (show ¬((!st.isOpen) = true) by simp [hopen])]
  rw [if_neg (show ¬(st.readOnly = true) by simp [hro])]
  dsimp only
  split
  · obtain ⟨h1, h2, h3, h4, h5, h6, h7, h8⟩ :=
      writeSerializedEventSources_contained
        { st with
          serializedEventTags := tag :: st.serializedEventTags
          serializedEventTagsSize := st.serializedEventTagsSize + tag.data.length }
    refine ⟨_, rfl, h1, h2, h3, ?_, h5, h6, h7, h8⟩
    rw [h4]
    exact hpush
  · exact ⟨_, rfl, rfl, rfl, rfl, hpush, rfl, rfl, rfl, rfl⟩

theorem ZIPStorageFile.addAnalysisReport_contained (st : ZIPStorageFile) (d : SBytes)
    (hopen : st.isOpen = true) (hro : st.readOnly = false) :
    ∃ st', st.addAnalysisReport d = .ok st' ∧
      st'.containedErrors = st.containedErrors ∧
      st'.containedEvents = st.containedEvents ∧
      st'.containedEventSources = st.containedEventSources ∧
      st'.containedEventTags = st.containedEventTags ∧
      st'.containedAnalysisReports = st.containedAnalysisReports ++ [d] ∧
      st'.isOpen = st.isOpen ∧ st'.readOnly = st.readOnly ∧
      st'.maximumBufferSize = st.maximumBufferSize := by
  unfold ZIPStorageFile.addAnalysisReport
  rw [if_neg (show ¬((!st.isOpen) = true) by simp [hopen])]
  rw [if_neg (show ¬(st.readOnly = true) by simp [hro])]
  refine ⟨_, rfl, rfl, rfl, rfl, rfl, ?_, rfl, rfl, rfl⟩
  simp [ZIPStorageFile.containedAnalysisReports]

/-- Evaluation of one `foldlM` step over `Except` once the step's result
is known. -/
theorem foldlM_except_cons {σ α : Type} (f : σ → α → Except String σ)
    (init st1 : σ) (a : α) (l : List α) (h : f init a = .ok st1) :
    (a :: l).foldlM f init = l.foldlM f st1 := by
  rw [List.foldlM_cons, h]
  rfl

theorem except_bind_ok {α β : Type} (a : α) (f : α → Except String β) :
    (Except.ok a : Except String α).bind f = f a := rfl

theorem foldAddErrors_contained : ∀ (l : List SBytes) (st : ZIPStorageFile),
    ∃ st', l.foldlM ZIPStorageFile.addError st = .ok st' ∧
      st'.containedErrors = st.containedErrors ++ l ∧
      st'.containedEvents = st.containedEvents ∧
      st'.containedEventSources = st.containedEventSources ∧
      st'.containedEventTags = st.containedEventTags ∧
      st'.containedAnalysisReports = st.containedAnalysisReports ∧
      st'.isOpen = st.isOpen ∧ st'.readOnly = st.readOnly ∧
      st'.maximumBufferSize = st.maximumBufferSize
  | [], st => ⟨st, rfl, by simp, rfl, rfl, rfl, rfl, rfl, rfl, rfl⟩
  | d :: l, st => by
    obtain ⟨st1, h1, e1, e2, e3, e4, e5, e6, e7, e8⟩ := ZIPStorageFile.addError_contained st d
    obtain ⟨st', h2, f1, f2, f3, f4, f5, f6, f7, f8⟩ := foldAddErrors_contained l st1
    refine ⟨st', ?_, ?_, ?_, ?_, ?_, ?_, ?_, ?_, ?_⟩
    · rw [foldlM_except_cons _ _ _ _ _ h1]; exact h2
    · rw [f1, e1]; simp
    · rw [f2, e2]
    · rw [f3, e3]
    · rw [f4, e4]
    · rw [f5, e5]
    · rw [f6, e6]
    · rw [f7, e7]
    · rw [f8, e8]

theorem foldAddEvents_contained : ∀ (l : List (Int × SBytes)) (st : ZIPStorageFile),
    st.isOpen = true → st.readOnly = false →
    ∃ st', l.foldlM (fun (sf : ZIPStorageFile) p => sf.addEvent p.1 p.2) st = .ok st' ∧
      st'.containedErrors = st.containedErrors ∧
      st'.containedEvents.Perm (st.containedEvents ++ l) ∧
      st'.containedEventSources = st.containedEventSources ∧
      st'.containedEventTags = st.containedEventTags ∧
      st'.containedAnalysisReports = st.containedAnalysisReports ∧
      st'.isOpen = true ∧ st'.readOnly = false ∧
      st'.maximumBufferSize = st.maximumBufferSize
  | [], st, _, _ => ⟨st, rfl, rfl, by simp, rfl, rfl, rfl, by assumption, by assumption, rfl⟩
  | p :: l, st, hopen, hro => by
    obtain ⟨st1, h1, e1, e2, e3, e4, e5, e6, e7, e8⟩ :=
      ZIPStorageFile.addEvent_contained st p.1 p.2 hopen hro
    obtain ⟨st', h2, f1, f2, f3, f4, f5, f6, f7, f8⟩ :=
      foldAddEvents_contained l st1 (e6.trans hopen) (e7.trans hro)
    refine ⟨st', ?_, ?_, ?_, ?_, ?_, ?_, f6, f7, ?_⟩
    · rw [foldlM_except_cons _ _ _ _ _ h1]; exact h2
    · rw [f1, e1]
    · have := f2.trans (e2.append_right l)
      simpa using this
    · rw [f3, e3]
    · rw [f4, e4]
    · rw [f5, e5]
    · rw [f8, e8]

theorem foldAddEventSources_contained : ∀ (l : List SBytes) (st : ZIPStorageFile),
    st.isOpen = true → st.readOnly = false →
    ∃ st', l.foldlM ZIPStorageFile.addEventSource st = .ok st' ∧
      st'.containedErrors = st.containedErrors ∧
      st'.containedEvents = st.containedEvents ∧
      st'.containedEventSources = st.containedEventSources ++ l ∧
      st'.containedEventTags = st.containedEventTags ∧
      st'.containedAnalysisReports = st.containedAnalysisReports ∧
      st'.isOpen = true ∧ st'.readOnly = false ∧
      st'.maximumBufferSize = st.maximumBufferSize
  | [], st, _, _ => ⟨st, rfl, rfl, rfl, by simp, rfl, rfl, by assumption, by assumption, rfl⟩
  | d :: l, st, hopen, hro => by
    obtain ⟨st1, h1, e1, e2, e3, e4, e5, e6, e7, e8⟩ :=
      ZIPStorageFile.addEventSource_contained st d hopen hro
    obtain ⟨st', h2, f1, f2, f3, f4, f5, f6, f7, f8⟩ :=
      foldAddEventSources_contained l st1 (e6.trans hopen) (e7.trans hro)
    refine ⟨st', ?_, ?_, ?_, ?_, ?_, ?_, f6, f7, ?_⟩
    · rw [foldlM_except_cons _ _ _ _ _ h1]; exact h2
    · rw [f1, e1]
    · rw [f2, e2]
    · rw [f3, e3]; simp
    · rw [f4, e4]
    · rw [f5, e5]
    · rw [f8, e8]

theorem foldAddEventTags_contained : ∀ (l : List SerializedEventTag) (st : ZIPStorageFile),
    st.isOpen = true → st.readOnly = false →
    ∃ st', l.foldlM ZIPStorageFile.addEventTag st = .ok st' ∧
      st'.containedErrors = st.containedErrors ∧
      st'.containedEvents = st.containedEvents ∧
      st'.containedEventSources = st.containedEventSources ∧
      st'.containedEventTags.Perm (st.containedEventTags ++ l) ∧
      st'.containedAnalysisReports = st.containedAnalysisReports ∧
      st'.isOpen = true ∧ st'.readOnly = false ∧
      st'.maximumBufferSize = st.maximumBufferSize
  | [], st, _, _ => ⟨st, rfl, rfl, rfl, rfl, by simp, rfl, by assumption, by assumption, rfl⟩
  | tag :: l, st, hopen, hro => by
    obtain ⟨st1, h1, e1, e2, e3, e4, e5, e6, e7, e8⟩ :=
      ZIPStorageFile.addEventTag_contained st tag hopen hro
    obtain ⟨st', h2, f1, f2, f3, f4, f5, f6, f7, f8⟩ :=
      foldAddEventTags_contained l st1 (e6.trans hopen) (e7.trans hro)
    refine ⟨st', ?_, ?_, ?_, ?_, ?_, ?_, f6, f7, ?_⟩
    · rw [foldlM_except_cons _ _ _ _ _ h1]; exact h2
    · rw [f1, e1]
    · rw [f2, e2]
    · rw [f3, e3]
    · have := f4.trans (e4.append_right l)
      simpa using this
    · rw [f5, e5]
    · rw [f8, e8]

theorem foldAddAnalysisReports_contained : ∀ (l : List SBytes) (st : ZIPStorageFile),
    st.isOpen = true → st.readOnly = false →
    ∃ st', l.foldlM ZIPStorageFile.addAnalysisReport st = .ok st' ∧
      st'.containedErrors = st.containedErrors ∧
      st'.containedEvents = st.containedEvents ∧
      st'.containedEventSources = st.containedEventSources ∧
      st'.containedEventTags = st.containedEventTags ∧
      st'.containedAnalysisReports = st.containedAnalysisReports ++ l ∧
      st'.isOpen = true ∧ st'.readOnly = false ∧
      st'.maximumBufferSize = st.maximumBufferSize
  | [], st, _, _ => ⟨st, rfl, rfl, rfl, rfl, rfl, by simp, by assumption, by assumption, rfl⟩
  | d :: l, st, hopen, hro => by
    obtain ⟨st1, h1, e1, e2, e3, e4, e5, e6, e7, e8⟩ :=
      ZIPStorageFile.addAnalysisReport_contained st d hopen hro
    obtain ⟨st', h2, f1, f2, f3, f4, f5, f6, f7, f8⟩ :=
      foldAddAnalysisReports_contained l st1 (e6.trans hopen) (e7.trans hro)
    refine ⟨st', ?_, ?_, ?_, ?_, ?_, ?_, f6, f7, ?_⟩
    · rw [foldlM_except_cons _ _ _ _ _ h1]; exact h2
    · rw [f1, e1]
    · rw [f2, e2]
    · rw [f3, e3]
    · rw [f4, e4]
    · rw [f5, e5]; simp
    · rw [f8, e8]

/-- Replaying a task container's records through the session
container's `Add*` operations appends exactly those records to the
session container's contained records of each kind, up to the
rearrangement the heap-backed buffers perform. -/
theorem mergeFromStorage_contained (sf : ZIPStorageFile) (r : TaskRecords)
    (hopen : sf.isOpen = true) (hro : sf.readOnly = false) :
    ∃ sf', mergeFromStorage sf r = .ok sf' ∧
      sf'.containedErrors = sf.containedErrors ++ r.errors ∧
      sf'.containedEvents.Perm (sf.containedEvents ++ r.events) ∧
      sf'.containedEventSources = sf.containedEventSources ++ r.sources ∧
      sf'.containedEventTags.Perm (sf.containedEventTags ++ r.tags) ∧
      sf'.containedAnalysisReports = sf.containedAnalysisReports ++ r.reports ∧
      sf'.isOpen = true ∧ sf'.readOnly = false := by
  obtain ⟨s1, h1, a1, a2, a3, a4, a5, a6, a7, a8⟩ := foldAddErrors_contained r.errors sf
  obtain ⟨s2, h2, b1, b2, b3, b4, b5, b6, b7, b8⟩ :=
    foldAddEvents_contained r.events s1 (a6.trans hopen) (a7.trans hro)
  obtain ⟨s3, h3, c1, c2, c3, c4, c5, c6, c7, c8⟩ :=
    foldAddEventSources_contained r.sources s2 b6 b7
  obtain ⟨s4, h4, d1, d2, d3, d4, d5, d6, d7, d8⟩ :=
    foldAddEventTags_contained r.tags s3 c6 c7
  obtain ⟨s5, h5, g1, g2, g3, g4, g5, g6, g7, g8⟩ :=
    foldAddAnalysisReports_contained r.reports s4 d6 d7
  refine ⟨s5, ?_, ?_, ?_, ?_, ?_, ?_, g6, g7⟩
  · unfold mergeFromStorage
    rw [h1, except_bind_ok, h2, except_bind_ok, h3, except_bind_ok, h4,
      except_bind_ok, h5]
  · rw [g1, d1, c1, b1, a1]
  · rw [g2, d2, c2]
    exact b2.trans (by rw [a2])
  · rw [g3, d3, c3, b3, a3]
  · rw [g4]
    refine d4.trans ?_
    rw [c4, b4, a4]
  · rw [g5, d5, c5, b5, a5]

/-!
### Tag-index lookup lemmas
-/

theorem find?_filter_ne (d : List (SBytes × EventTagIndexValue)) (k k' : SBytes)
    (h : (k' == k) = false) :
    (d.filter (fun p => p.1 != k)).find? (fun p => p.1 == k') =
      d.find? (fun p => p.1 == k') := by
  induction d with
  | nil => rfl
  | cons p d ih =>
    cases hpk : (p.1 == k) with
    | false =>
      have hb : (p.1 != k) = true := by simp [bne, hpk]
      rw [List.filter_cons, if_pos hb]
      cases hpk' : (p.1 == k') with
      | true => simp only [List.find?, hpk']
      | false => simp only [List.find?, hpk']; exact ih
    | true =>
      have hb : (p.1 != k) = false := by simp [bne, hpk]
      have hk : p.1 = k := by simpa using hpk
      have hne : k' ≠ k := by simpa using h
      have hpk' : (p.1 == k') = false := by
        rw [hk]
        exact beq_eq_false_iff_ne.mpr (fun hh => hne hh.symm)
      rw [List.filter_cons, if_neg (by rw [hb]; simp)]
      rw [ih]
      simp only [List.find?, hpk']

theorem dictGet_dictSet (d : List (SBytes × EventTagIndexValue)) (k : SBytes)
    (v : EventTagIndexValue) (k' : SBytes) :
    dictGet (dictSet d k v) k' = if k' = k then some v else dictGet d k' := by
  unfold dictGet dictSet
  by_cases h : k' = k
  · have hh : ((k, v).1 == k') = true := beq_iff_eq.mpr h.symm
    rw [if_pos h]
    simp only [List.find?, hh]
    rfl
  · have hh : ((k, v).1 == k') = false :=
      beq_eq_false_iff_ne.mpr (fun hk => h hk.symm)
    rw [if_neg h]
    simp only [List.find?, hh]
    rw [find?_filter_ne d k k' (beq_eq_false_iff_ne.mpr h)]

theorem dictGet_insertTable_none (tbl : List EventTagIndexValue) :
    ∀ (d : List (SBytes × EventTagIndexValue)) (k : SBytes),
    dictGet (tbl.foldl
        (fun d v => match v.identifier with
          | some kk => dictSet d kk v
          | none => d) d) k = none ↔
      (dictGet d k = none ∧ ∀ v ∈ tbl, v.identifier ≠ some k) := by
  induction tbl with
  | nil => intro d k; simp
  | cons v tbl ih =>
    intro d k
    rw [List.foldl_cons]
    cases hid : v.identifier with
    | none =>
      rw [ih]
      simp [hid]
    | some kk =>
      rw [ih, dictGet_dictSet]
      by_cases hk : k = kk
      · subst hk
        simp [hid]
      · simp [hid, hk, Ne.symm hk]

theorem dictGet_buildTagIndex_none (tables : List (List EventTagIndexValue))
    (k : SBytes) :
    dictGet (buildTagIndex tables) k = none ↔
      ∀ tbl ∈ tables, ∀ v ∈ tbl, v.identifier ≠ some k := by
  have aux : ∀ (ts : List (List EventTagIndexValue))
      (d : List (SBytes × EventTagIndexValue)),
      dictGet (ts.foldl
          (fun d tbl => tbl.foldl
            (fun d v => match v.identifier with
              | some kk => dictSet d kk v
              | none => d) d) d) k = none ↔
        (dictGet d k = none ∧ ∀ tbl ∈ ts, ∀ v ∈ tbl, v.identifier ≠ some k) := by
    intro ts
    induction ts with
    | nil => intro d; simp
    | cons tbl ts ih =>
      intro d
      rw [List.foldl_cons, ih, dictGet_insertTable_none]
      simp [and_assoc]
  rw [buildTagIndex, aux]
  simp [dictGet]

/-!
### Table-cache lemmas
-/

theorem mem_of_getLastOpt : ∀ (l : List Nat) (a : Nat), l.getLast? = some a → a ∈ l
  | [], a, h => by simp [List.getLast?] at h
  | [x], a, h => by
    have hx : x = a := by
      have h' : (some x : Option Nat) = some a := h
      exact Option.some.inj h'
    rw [← hx]
    exact List.mem_singleton_self x
  | x :: y :: l, a, h => by
    have h' : (y :: l).getLast? = some a := by
      rw [List.getLast?_cons_cons] at h
      exact h
    exact List.mem_cons_of_mem x (mem_of_getLastOpt (y :: l) a h')

theorem lfuTouch_getLast (lfu : List Nat) (n : Nat) :
    (lfuTouch lfu n).getLast? = some n := by
  simp [lfuTouch]

theorem cacheGet_append_single_ne {α : Type} (c : List (Nat × α)) (n m : Nat) (t : α)
    (h : m ≠ n) : cacheGet (c ++ [(n, t)]) m = cacheGet c m := by
  induction c with
  | nil =>
    have : ((n, t).1 == m) = false := beq_eq_false_iff_ne.mpr (fun hh => h hh.symm)
    simp only [List.nil_append, cacheGet, List.find?, this]
  | cons p c ih =>
    cases hp : (p.1 == m) with
    | true => simp only [cacheGet, List.cons_append, List.find?, hp]
    | false =>
      simp only [cacheGet, List.cons_append, List.find?, hp]
      exact ih

theorem cacheGet_filter_self {α : Type} (c : List (Nat × α)) (n : Nat) :
    cacheGet (c.filter (fun p => p.1 != n)) n = none := by
  unfold cacheGet
  rw [List.find?_eq_none.mpr]
  · rfl
  · intro p hp
    have := (List.mem_filter.mp hp).2
    simp only [bne] at this
    intro hcon
    rw [hcon] at this
    simp at this

theorem length_filter_lt_of_found {α : Type} (c : List (Nat × α)) (n : Nat)
    (h : (c.find? (fun p => p.1 == n)).isSome) :
    (c.filter (fun p => p.1 != n)).length < c.length := by
  obtain ⟨p, hmem, hkey⟩ := List.find?_isSome.mp h
  refine List.length_filter_lt_length_iff_exists.mpr ⟨p, hmem, ?_⟩
  simp only [bne, hkey, Bool.not_true]
  simp

/-- The amended single-operation specification of
`_GetSerializedEventTimestampTable`: the hypotheses say the stream's
table exists in the ZIP file, the cache is within capacity, and the
cache keys and the recency list hold the same stream numbers (as every
reachable cache state does).  The conclusions: the call succeeds, the
cache stays within capacity, the served stream becomes the LAST element
of the recency list, and when the load evicts, the evicted table is the
one that was the last element of the recency list — the
most-recently-touched table, not the least-recently-touched one. -/
theorem getSerializedEventTimestampTable_spec
    (st : TableCacheState) (zip : List (Nat × List Int)) (n : Nat) (tbl : List Int)
    (hzip : cacheGet zip n = some tbl)
    (hsize : st.eventTimestampTables.length ≤ maximumNumberOfCachedTables)
    (hkeys1 : ∀ p ∈ st.eventTimestampTables, p.1 ∈ st.eventTimestampTablesLfu)
    (hkeys2 : ∀ k ∈ st.eventTimestampTablesLfu,
      (cacheGet st.eventTimestampTables k).isSome) :
    ∃ r st', getSerializedEventTimestampTable st zip n = .ok (r, st') ∧
      st'.eventTimestampTables.length ≤ maximumNumberOfCachedTables ∧
      st'.eventTimestampTablesLfu.getLast? = some n ∧
      (maximumNumberOfCachedTables ≤ st.eventTimestampTables.length →
        cacheGet st.eventTimestampTables n = none →
        ∃ ev, st.eventTimestampTablesLfu.getLast? = some ev ∧ ev ≠ n ∧
          cacheGet st'.eventTimestampTables ev = none) := by
  unfold getSerializedEventTimestampTable
  cases hhit : cacheGet st.eventTimestampTables n with
  | some table =>
    refine ⟨table, _, rfl, hsize, lfuTouch_getLast _ _, ?_⟩
    intro _ hmiss
    exact absurd hmiss (by simp)
  | none =>
    rw [hzip]
    by_cases hfull : maximumNumberOfCachedTables ≤ st.eventTimestampTables.length
    · have hne : st.eventTimestampTables ≠ [] := by
        intro hnil
        rw [hnil] at hfull
        simp [maximumNumberOfCachedTables] at hfull
      obtain ⟨p, ps, hps⟩ : ∃ p ps, st.eventTimestampTables = p :: ps := by
        cases hc : st.eventTimestampTables with
        | nil => exact absurd hc hne
        | cons p ps => exact ⟨p, ps, rfl⟩
      have hlfu_ne : st.eventTimestampTablesLfu ≠ [] := by
        intro hnil
        have := hkeys1 p (by rw [hps]; exact List.mem_cons_self p ps)
        rw [hnil] at this
        exact absurd this (List.not_mem_nil _)
      obtain ⟨ev, hev⟩ : ∃ ev, st.eventTimestampTablesLfu.getLast? = some ev := by
        cases hl : st.eventTimestampTablesLfu.getLast? with
        | none => exact absurd (List.getLast?_eq_none_iff.mp hl) hlfu_ne
        | some ev => exact ⟨ev, rfl⟩
      have hev_mem : ev ∈ st.eventTimestampTablesLfu :=
        mem_of_getLastOpt _ _ hev
      have hev_some : (cacheGet st.eventTimestampTables ev).isSome :=
        hkeys2 ev hev_mem
      have hev_ne : ev ≠ n := by
        intro hcon
        rw [hcon, hhit] at hev_some
        simp at hev_some
      have hfind : (st.eventTimestampTables.find? (fun p => p.1 == ev)).isSome := by
        have h' := hev_some
        unfold cacheGet at h'
        rwa [Option.isSome_map'] at h'
      have hdel : cacheDel st.eventTimestampTables ev =
          .ok (st.eventTimestampTables.filter (fun p => p.1 != ev)) := by
        unfold cacheDel
        rw [if_pos hfind]
      have hpop : listPopLast st.eventTimestampTablesLfu =
          .ok (ev, st.eventTimestampTablesLfu.dropLast) := by
        unfold listPopLast
        rw [hev]
      refine ⟨tbl, { st with
          eventTimestampTables :=
            st.eventTimestampTables.filter (fun p => p.1 != ev) ++ [(n, tbl)]
          eventTimestampTablesLfu :=
            lfuTouch st.eventTimestampTablesLfu.dropLast n }, ?_, ?_, ?_, ?_⟩
      · dsimp only
        rw [if_pos hfull, hpop]
        dsimp only
        rw [hdel]
      · simp only [List.length_append, List.length_cons, List.length_nil]
        have hlt := length_filter_lt_of_found st.eventTimestampTables ev hfind
        omega
      · exact lfuTouch_getLast _ _
      · intro _ _
        refine ⟨ev, hev, hev_ne, ?_⟩
        rw [cacheGet_append_single_ne _ _ _ _ hev_ne]
        exact cacheGet_filter_self _ _
    · refine ⟨tbl, { st with
          eventTimestampTables := st.eventTimestampTables ++ [(n, tbl)]
          eventTimestampTablesLfu := lfuTouch st.eventTimestampTablesLfu n }, ?_, ?_, ?_, ?_⟩
      · dsimp only
        rw [if_neg hfull]
      · simp only [List.length_append, List.length_cons, List.length_nil]
        omega
      · exact lfuTouch_getLast _ _
      · intro hcap _
        exact absurd hcap hfull

/-- The same single-operation specification for
`_GetSerializedEventOffsetTable` (`_GetSerializedDataOffsetTable` on
the event offset cache, whose own recency list is the one popped). -/
theorem getSerializedEventOffsetTable_spec
    (st : TableCacheState) (zip : List (Nat × List Nat)) (n : Nat) (tbl : List Nat)
    (hzip : cacheGet zip n = some tbl)
    (hsize : st.eventOffsetTables.length ≤ maximumNumberOfCachedTables)
    (hkeys1 : ∀ p ∈ st.eventOffsetTables, p.1 ∈ st.eventOffsetTablesLfu)
    (hkeys2 : ∀ k ∈ st.eventOffsetTablesLfu,
      (cacheGet st.eventOffsetTables k).isSome) :
    ∃ r st', getSerializedEventOffsetTable st zip n = .ok (r, st') ∧
      st'.eventOffsetTables.length ≤ maximumNumberOfCachedTables ∧
      st'.eventOffsetTablesLfu.getLast? = some n ∧
      (maximumNumberOfCachedTables ≤ st.eventOffsetTables.length →
        cacheGet st.eventOffsetTables n = none →
        ∃ ev, st.eventOffsetTablesLfu.getLast? = some ev ∧ ev ≠ n ∧
          cacheGet st'.eventOffsetTables ev = none) := by
  unfold getSerializedEventOffsetTable
  cases hhit : cacheGet st.eventOffsetTables n with
  | some table =>
    refine ⟨table, _, rfl, hsize, lfuTouch_getLast _ _, ?_⟩
    intro _ hmiss
    exact absurd hmiss (by simp)
  | none =>
    rw [hzip]
    by_cases hfull : maximumNumberOfCachedTables ≤ st.eventOffsetTables.length
    · have hne : st.eventOffsetTables ≠ [] := by
        intro hnil
        rw [hnil] at hfull
        simp [maximumNumberOfCachedTables] at hfull
      obtain ⟨p, ps, hps⟩ : ∃ p ps, st.eventOffsetTables = p :: ps := by
        cases hc : st.eventOffsetTables with
        | nil => exact absurd hc hne
        | cons p ps => exact ⟨p, ps, rfl⟩
      have hlfu_ne : st.eventOffsetTablesLfu ≠ [] := by
        intro hnil
        have := hkeys1 p (by rw [hps]; exact List.mem_cons_self p ps)
        rw [hnil] at this
        exact absurd this (List.not_mem_nil _)
      obtain ⟨ev, hev⟩ : ∃ ev, st.eventOffsetTablesLfu.getLast? = some ev := by
        cases hl : st.eventOffsetTablesLfu.getLast? with
        | none => exact absurd (List.getLast?_eq_none_iff.mp hl) hlfu_ne
        | some ev => exact ⟨ev, rfl⟩
      have hev_mem : ev ∈ st.eventOffsetTablesLfu :=
        mem_of_getLastOpt _ _ hev
      have hev_some : (cacheGet st.eventOffsetTables ev).isSome :=
        hkeys2 ev hev_mem
      have hev_ne : ev ≠ n := by
        intro hcon
        rw [hcon, hhit] at hev_some
        simp at hev_some
      have hfind : (st.eventOffsetTables.find? (fun p => p.1 == ev)).isSome := by
        have h' := hev_some
        unfold cacheGet at h'
        rwa [Option.isSome_map'] at h'
      have hdel : cacheDel st.eventOffsetTables ev =
          .ok (st.eventOffsetTables.filter (fun p => p.1 != ev)) := by
        unfold cacheDel
        rw [if_pos hfind]
      have hpop : listPopLast st.eventOffsetTablesLfu =
          .ok (ev, st.eventOffsetTablesLfu.dropLast) := by
        unfold listPopLast
        rw [hev]
      refine ⟨tbl, { st with
          eventOffsetTables :=
            st.eventOffsetTables.filter (fun p => p.1 != ev) ++ [(n, tbl)]
          eventOffsetTablesLfu :=
            lfuTouch st.eventOffsetTablesLfu.dropLast n }, ?_, ?_, ?_, ?_⟩
      · dsimp only
        rw [if_pos hfull, hpop]
        dsimp only
        rw [hdel]
      · simp only [List.length_append, List.length_cons, List.length_nil]
        have hlt := length_filter_lt_of_found st.eventOffsetTables ev hfind
        omega
      · exact lfuTouch_getLast _ _
      · intro _ _
        refine ⟨ev, hev, hev_ne, ?_⟩
        rw [cacheGet_append_single_ne _ _ _ _ hev_ne]
        exact cacheGet_filter_self _ _
    · refine ⟨tbl, { st with
          eventOffsetTables := st.eventOffsetTables ++ [(n, tbl)]
          eventOffsetTablesLfu := lfuTouch st.eventOffsetTablesLfu n }, ?_, ?_, ?_, ?_⟩
      · dsimp only
        rw [if_neg hfull]
      · simp only [List.length_append, List.length_cons, List.length_nil]
        omega
      · exact lfuTouch_getLast _ _
      · intro hcap _
        exact absurd hcap hfull

/-- `_GetSerializedEventSourceOffsetTable` consults the EVENT offset
recency list for eviction: when the event-source cache is at capacity
and the event offset recency list is empty (as it is whenever only
event-source streams have been read), the load fails with the
`IndexError` of `list.pop()` on an empty list instead of evicting an
event-source table. -/
theorem getSerializedEventSourceOffsetTable_evict_error
    (st : TableCacheState) (zip : List (Nat × List Nat)) (n : Nat) (tbl : List Nat)
    (hmiss : cacheGet st.eventSourceOffsetTables n = none)
    (hzip : cacheGet zip n = some tbl)
    (hfull : maximumNumberOfCachedTables ≤ st.eventSourceOffsetTables.length)
    (hlfu : st.eventOffsetTablesLfu = []) :
    getSerializedEventSourceOffsetTable st zip n =
      .error "IndexError: pop from empty list" := by
  unfold getSerializedEventSourceOffsetTable
  rw [hmiss, hzip]
  have hpop : listPopLast st.eventOffsetTablesLfu =
      .error "IndexError: pop from empty list" := by
    rw [hlfu]
    rfl
  dsimp only
  rw [if_pos hfull, hpop]

/-- A cache miss within capacity simply loads the table from the ZIP
file, appends it to the cache, and touches the recency list. -/
theorem getSerializedEventSourceOffsetTable_miss_no_evict
    (st : TableCacheState) (zip : List (Nat × List Nat)) (n : Nat) (tbl : List Nat)
    (hmiss : cacheGet st.eventSourceOffsetTables n = none)
    (hzip : cacheGet zip n = some tbl)
    (hsmall : ¬maximumNumberOfCachedTables ≤ st.eventSourceOffsetTables.length) :
    getSerializedEventSourceOffsetTable st zip n =
      .ok (tbl, { st with
        eventSourceOffsetTables := st.eventSourceOffsetTables ++ [(n, tbl)]
        eventSourceOffsetTablesLfu :=
          lfuTouch st.eventSourceOffsetTablesLfu n }) := by
  unfold getSerializedEventSourceOffsetTable
  rw [hmiss, hzip]
  dsimp only
  rw [if_neg hsmall]

/-- The total entry count of the offset tables the stream loop of
`GetEventSourceByIndex` walks through. -/
def sumSourceTables (zipTables : List (Nat × List Nat)) (ns : List Nat) : Nat :=
  (ns.map (fun n => ((cacheGet zipTables n).getD []).length)).sum

theorem getEventSourceByIndexLoop_none (zipTables : List (Nat × List Nat))
    (zipData : List (Nat × List SBytes)) :
    ∀ (ns : List Nat) (st : TableCacheState) (index : Nat),
    st.eventSourceOffsetTables.length + ns.length ≤ maximumNumberOfCachedTables →
    (∀ n ∈ ns, cacheGet st.eventSourceOffsetTables n = none) →
    (∀ n ∈ ns, (cacheGet zipTables n).isSome) →
    ns.Nodup →
    sumSourceTables zipTables ns ≤ index →
    ∃ st', getEventSourceByIndexLoop zipTables zipData st index ns =
      .ok (none, st', index - sumSourceTables zipTables ns)
  | [], st, index, _, _, _, _, _ => ⟨st, by simp [getEventSourceByIndexLoop, sumSourceTables]⟩
  | n :: ns, st, index, hcap, hmiss, hzip, hnd, hidx => by
    obtain ⟨t, ht⟩ := Option.isSome_iff_exists.mp (hzip n (List.mem_cons_self n ns))
    have hsmall : ¬maximumNumberOfCachedTables ≤ st.eventSourceOffsetTables.length := by
      simp only [List.length_cons] at hcap
      omega
    have hstep := getSerializedEventSourceOffsetTable_miss_no_evict st zipTables n t
      (hmiss n (List.mem_cons_self n ns)) ht hsmall
    have hsum : sumSourceTables zipTables (n :: ns) =
        t.length + sumSourceTables zipTables ns := by
      simp [sumSourceTables, ht]
    have htle : t.length ≤ index := by
      rw [hsum] at hidx
      omega
    have hrec := getEventSourceByIndexLoop_none zipTables zipData ns
      { st with
        eventSourceOffsetTables := st.eventSourceOffsetTables ++ [(n, t)]
        eventSourceOffsetTablesLfu := lfuTouch st.eventSourceOffsetTablesLfu n }
      (index - t.length)
      (by simp only [List.length_append, List.length_cons, List.length_nil]
          simp only [List.length_cons] at hcap
          omega)
      (by intro m hm
          have hne : m ≠ n := by
            intro hcon
            rw [hcon] at hm
            exact (List.nodup_cons.mp hnd).1 hm
          dsimp only
          rw [cacheGet_append_single_ne _ _ _ _ hne]
          exact hmiss m (List.mem_cons_of_mem n hm))
      (fun m hm => hzip m (List.mem_cons_of_mem n hm))
      (List.nodup_cons.mp hnd).2
      (by rw [hsum] at hidx; omega)
    obtain ⟨st', hloop⟩ := hrec
    refine ⟨st', ?_⟩
    unfold getEventSourceByIndexLoop
    rw [hstep]
    dsimp only
    have harith : index - t.length - sumSourceTables zipTables ns =
        index - (t.length + sumSourceTables zipTables ns) := by omega
    rw [if_pos htle, hloop, harith, hsum]

/-!
### Concrete scenarios

Small concrete containers, caches and writers on which the claims'
properties are evaluated.
-/

/-- A sequence of `_GetSerializedEventTimestampTable` calls, keeping
only the cache state. -/
def loadTimestampTables (zip : List (Nat × List Int)) :
    TableCacheState → List Nat → Except String TableCacheState
  | st, [] => .ok st
  | st, n :: ns =>
    match getSerializedEventTimestampTable st zip n with
    | .error e => .error e
    | .ok (_, st') => loadTimestampTables zip st' ns

/-- Six `event_timestamps.N` tables of one entry each. -/
def demoTimestampZip : List (Nat × List Int) :=
  [(1, [10]), (2, [20]), (3, [30]), (4, [40]), (5, [50]), (6, [60])]

/-- A timestamp-table cache filled to capacity with streams 1..5, each
touched once in that order (5 most recently). -/
def demoFullTimestampCache : TableCacheState :=
  ⟨[], [], [], [], [(1, [10]), (2, [20]), (3, [30]), (4, [40]), (5, [50])],
    [1, 2, 3, 4, 5]⟩

/-- Six `event_source_index.N` tables of one entry each. -/
def demoSourceZipTables : List (Nat × List Nat) :=
  [(1, [0]), (2, [0]), (3, [0]), (4, [0]), (5, [0]), (6, [0])]

/-- The matching `event_source_data.N` entries. -/
def demoSourceZipData : List (Nat × List SBytes) :=
  [(1, [[1]]), (2, [[2]]), (3, [[3]]), (4, [[4]]), (5, [[5]]), (6, [[6]])]

/-- The records of a finished task container. -/
def demoTaskRecords : TaskRecords :=
  ⟨[[1]], [(5, [2]), (3, [9])], [[3]], [⟨some 1, some 0, none, [4]⟩], [[5]]⟩

/-- A session writer whose merge-ready directory holds task1's file. -/
def demoSessionWriter : ZIPStorageFileWriter :=
  ⟨some (ZIPStorageFile.freshWritable 1000), StorageType.session, some "/task",
    some "/merge", [(taskFilePath "/merge" "task1", demoTaskRecords)]⟩

/-!
### The claims
-/

/-- Claim C1: for every sequence of `AddEvent` calls on an open writable
container, in arbitrary timestamp order and for every maximum buffer
size, closing the container, reopening it read-only and draining
`GetEvents()` with no time range yields the events' timestamps in
non-decreasing order. -/
theorem claim_C1 (adds : List (Int × SBytes)) (maximumBufferSize : Nat) :
    ∃ out, eventsRoundTrip adds maximumBufferSize none = .ok out ∧
      List.Chain' (fun a b : MergeEvent => a.timestamp ≤ b.timestamp) out :=
  eventsRoundTrip_sorted adds maximumBufferSize

/-- Claim C2 (refuted): `GetEvents` does NOT yield the total order on
`(timestamp, stream_number, entry_index)`.  Three events added as
timestamps 0, 5, 5 end in one stream in heap-drain order
`[(0, entry 0), (5, entry 2), (5, entry 1)]`: `_InitializeMergeBuffer`
pushes the second event of a same-timestamp group with
`event_object.store_number` (the attribute stamped on the record, not
the entry index), so the tuples tie on the first three components and
entry 2's event is yielded before entry 1's. -/
theorem claim_C2 :
    (eventsRoundTrip [(0, [10]), (5, [11]), (5, [12])] 1000 none).map
      (fun out => out.map (fun e => (e.timestamp, e.storeNumber, e.storeIndex)))
    = .ok [(0, 1, 0), (5, 1, 2), (5, 1, 1)] := by decide

/-- Claim C3 (refuted): `GetEvents` over the time range `[5, 5]` yields
the two timestamp-5 events as entries 1 then 2, while the unfiltered
sequence restricted to that range yields them as entries 2 then 1 — the
filtered run is not the in-range subsequence of the unfiltered run in
the same relative order (the start-scan skip changes which event seeds
the same-timestamp group). -/
theorem claim_C3 :
    (eventsRoundTrip [(0, [10]), (5, [11]), (5, [12])] 1000 (some ⟨5, 5⟩)).map
      (fun out => out.map (fun e => (e.timestamp, e.storeIndex)))
    = .ok [(5, 1), (5, 2)] ∧
    (eventsRoundTrip [(0, [10]), (5, [11]), (5, [12])] 1000 none).map
      (fun out => (out.filter (fun e => 5 ≤ e.timestamp ∧ e.timestamp ≤ 5)).map
        (fun e => (e.timestamp, e.storeIndex)))
    = .ok [(5, 2), (5, 1)] := by decide

/-- Claim C4 (refuted for event tags): on a container with maximum
buffer size 1 and one buffered event source, `AddEventTag` of a tag
whose serialized size is 2 leaves the tag buffer full (one tag of size
2, no `event_tag_data` stream, tag stream number still 1) and instead
drains the EVENT-SOURCE buffer (source stream number bumped to 2, the
source buffer emptied into a new stream): the flush triggered by the
tag buffer's overflow is `_WriteSerializedEventSources`, not
`_WriteSerializedEventTags`. -/
theorem claim_C4 :
    (((ZIPStorageFile.freshWritable 1).addEventSource [5]).bind
      (fun st => st.addEventTag ⟨some 1, some 0, none, [7, 7]⟩)).map
      (fun st => (st.serializedEventTags.length, st.serializedEventTagsSize,
        st.eventTagStreamNumber, st.eventTagStreams.length))
    = .ok (1, 2, 1, 0) ∧
    (((ZIPStorageFile.freshWritable 1).addEventSource [5]).bind
      (fun st => st.addEventTag ⟨some 1, some 0, none, [7, 7]⟩)).map
      (fun st => (st.eventSourceStreamNumber, st.eventSourcesList.list.length,
        st.eventSourceStreams.length))
    = .ok (2, 0, 1) := by decide

/-- Claim C5 (refuted for `AddError`): on a closed container and on a
read-only container `AddError` succeeds silently — it performs no
`_is_open` / `_read_only` check — while `AddEvent` on the same states
raises. -/
theorem claim_C5 :
    (({ ZIPStorageFile.freshWritable 8 with isOpen := false } :
        ZIPStorageFile).addError [1]).isOk = true ∧
    ({ ZIPStorageFile.freshWritable 8 with isOpen := false } :
        ZIPStorageFile).addEvent 0 [1] =
      .error "Unable to write to closed storage file." ∧
    (({ ZIPStorageFile.freshWritable 8 with readOnly := true } :
        ZIPStorageFile).addError [1]).isOk = true ∧
    ({ ZIPStorageFile.freshWritable 8 with readOnly := true } :
        ZIPStorageFile).addEvent 0 [1] =
      .error "Unable to write to read-only storage file." := by decide

/-- Claim C6 (refuted): `WriteAbort` removes `self._stream_name` — the
bare relative name, resolved against the working directory — while
`WriteInitialize` created the temporary file at
`os.path.join(self._path, self._stream_name)`.  When the working
directory is not the storage directory the partially written temporary
file survives the abort (the file object is closed, nothing is
deleted). -/
theorem claim_C6 :
    (writeAbort (writeInit ⟨"/cwd", []⟩ ⟨"/store", "error_data.000002", false⟩).1
        (writeInit ⟨"/cwd", []⟩ ⟨"/store", "error_data.000002", false⟩).2).1.files
      = [("/store", "error_data.000002")] ∧
    (writeAbort (writeInit ⟨"/cwd", []⟩ ⟨"/store", "error_data.000002", false⟩).1
        (writeInit ⟨"/cwd", []⟩ ⟨"/store", "error_data.000002", false⟩).2).2.fileObjectOpen
      = false := by decide

/-- Claim C7: for a session writer whose merge-ready directory holds
task `t`'s file, `MergeTaskStorage(t)` returns `True` and replays every
record of the task container (errors, events, event sources, event
tags, analysis reports) into the session container — each kind's
contained records grow by exactly the task's records — the task's file
is removed, and `CheckTaskStorageReadyForMerge(t)` then returns
`False`; when the task's file is not present, `MergeTaskStorage(t)`
returns `False`. -/
theorem claim_C7 (w : ZIPStorageFileWriter) (taskName p : String)
    (c : TaskRecords) (sf : ZIPStorageFile)
    (htype : w.storageType = StorageType.session)
    (hpath : w.mergeTaskStoragePath = some p)
    (hfile : w.mergeFiles.find? (fun f => f.1 == taskFilePath p taskName) =
      some (taskFilePath p taskName, c))
    (hsf : w.storageFile = some sf)
    (hopen : sf.isOpen = true) (hro : sf.readOnly = false) :
    (∃ w' sf', w.mergeTaskStorage taskName = .ok (true, w') ∧
      w'.storageFile = some sf' ∧
      sf'.containedErrors = sf.containedErrors ++ c.errors ∧
      sf'.containedEvents.Perm (sf.containedEvents ++ c.events) ∧
      sf'.containedEventSources = sf.containedEventSources ++ c.sources ∧
      sf'.containedEventTags.Perm (sf.containedEventTags ++ c.tags) ∧
      sf'.containedAnalysisReports = sf.containedAnalysisReports ++ c.reports ∧
      w'.mergeFiles.find? (fun f => f.1 == taskFilePath p taskName) = none ∧
      w'.checkTaskStorageReadyForMerge taskName = .ok false) ∧
    (∀ w2 : ZIPStorageFileWriter, w2.storageType = StorageType.session →
      w2.mergeTaskStoragePath = some p →
      w2.mergeFiles.find? (fun f => f.1 == taskFilePath p taskName) = none →
      w2.mergeTaskStorage taskName = .ok (false, w2)) := by
  have hnone : (w.mergeFiles.filter (fun g => g.1 != taskFilePath p taskName)).find?
      (fun f => f.1 == taskFilePath p taskName) = none := by
    apply List.find?_eq_none.mpr
    intro x hx
    have hxf := (List.mem_filter.mp hx).2
    simp only [bne] at hxf
    intro hc
    rw [hc] at hxf
    simp at hxf
  constructor
  · obtain ⟨sf', hm, e1, e2, e3, e4, e5, ho, hr⟩ := mergeFromStorage_contained sf c hopen hro
    refine ⟨{ w with
        storageFile := some sf'
        mergeFiles := w.mergeFiles.filter (fun g => g.1 != taskFilePath p taskName) },
      sf', ?_, rfl, e1, e2, e3, e4, e5, hnone, ?_⟩
    · unfold ZIPStorageFileWriter.mergeTaskStorage
      rw [if_neg (show ¬w.storageType ≠ StorageType.session by rw [htype]; simp)]
      rw [hpath]
      dsimp only
      rw [hfile]
      dsimp only
      rw [hsf]
      dsimp only
      rw [hm]
    · unfold ZIPStorageFileWriter.checkTaskStorageReadyForMerge
      dsimp only
      rw [if_neg (show ¬w.storageType ≠ StorageType.session by rw [htype]; simp)]
      rw [hpath]
      dsimp only
      rw [hnone]
      rfl
  · intro w2 ht2 hp2 hf2
    unfold ZIPStorageFileWriter.mergeTaskStorage
    rw [if_neg (show ¬w2.storageType ≠ StorageType.session by rw [ht2]; simp)]
    rw [hp2]
    dsimp only
    rw [hf2]

/-- A concrete merge: the demo session writer merges task1's records
and the task's file stops being ready for merge. -/
theorem claim_C7_witness :
    ∃ w', demoSessionWriter.mergeTaskStorage "task1" = .ok (true, w') ∧
      w'.checkTaskStorageReadyForMerge "task1" = .ok false := by
  obtain ⟨⟨w', sf', hok, _, _, _, _, _, _, _, hchk⟩, -⟩ :=
    claim_C7 demoSessionWriter "task1" "/merge" demoTaskRecords
      (ZIPStorageFile.freshWritable 1000) rfl rfl (by decide) rfl rfl rfl
  exact ⟨w', hok, hchk⟩

/-- Claim C8: over every built tag index and lookup key, the tag-index
lookup tries the numeric identifier `'{store_number}:{entry_index}'`
first; only when no entry matches that key does it try the UUID key;
and it returns `None` exactly when neither key matches any entry of the
scanned `event_tag_index.N` tables. -/
theorem claim_C8 (tables : List (List EventTagIndexValue))
    (storeNumber entryIndex : Nat) (uuid : SBytes) :
    (∀ v, dictGet (buildTagIndex tables)
        (numericTagIdentifier storeNumber entryIndex) = some v →
      getEventTagIndexValue (buildTagIndex tables) storeNumber entryIndex uuid =
        some v) ∧
    (dictGet (buildTagIndex tables)
        (numericTagIdentifier storeNumber entryIndex) = none →
      getEventTagIndexValue (buildTagIndex tables) storeNumber entryIndex uuid =
        dictGet (buildTagIndex tables) uuid) ∧
    ((∀ tbl ∈ tables, ∀ v ∈ tbl,
        v.identifier ≠ some (numericTagIdentifier storeNumber entryIndex) ∧
        v.identifier ≠ some uuid) →
      getEventTagIndexValue (buildTagIndex tables) storeNumber entryIndex uuid =
        none) := by
  refine ⟨?_, ?_, ?_⟩
  · intro v hv
    unfold getEventTagIndexValue
    dsimp only
    rw [hv]
  · intro hnum
    unfold getEventTagIndexValue
    dsimp only
    rw [hnum]
  · intro hnone
    unfold getEventTagIndexValue
    dsimp only
    rw [(dictGet_buildTagIndex_none tables
      (numericTagIdentifier storeNumber entryIndex)).mpr
      (fun tbl ht v hv => (hnone tbl ht v hv).1)]
    exact (dictGet_buildTagIndex_none tables uuid).mpr
      (fun tbl ht v hv => (hnone tbl ht v hv).2)

/-- A concrete lookup: a one-entry index matched by its numeric key,
and a miss on both keys returning `None`. -/
theorem claim_C8_witness :
    getEventTagIndexValue (buildTagIndex [[⟨1, 0, none, 3, some 7⟩]]) 3 7 [9] =
      some ⟨1, 0, none, 3, some 7⟩ ∧
    getEventTagIndexValue (buildTagIndex [[⟨1, 0, none, 3, some 7⟩]]) 3 8 [9] =
      none := by
  constructor
  · exact (claim_C8 [[⟨1, 0, none, 3, some 7⟩]] 3 7 [9]).1 _ (by decide)
  · exact (claim_C8 [[⟨1, 0, none, 3, some 7⟩]] 3 8 [9]).2.2 (by decide)

/-- Claim C9 (refuted as stated): six sequential timestamp-table loads
on a fresh cache leave table 1 — the LEAST-recently-touched — cached,
and evict table 5 — the most-recently-touched — when table 6 is
loaded. -/
theorem claim_C9_counterexample :
    (loadTimestampTables demoTimestampZip TableCacheState.fresh
        [1, 2, 3, 4, 5, 6]).map
      (fun st => (cacheGet st.eventTimestampTables 1,
        cacheGet st.eventTimestampTables 5, st.eventTimestampTablesLfu))
    = .ok (some [10], none, [1, 2, 3, 4, 6]) := by decide

/-- Claim C9 (amended): each cache stays within the configured maximum
number of tables and every hit or load appends the served stream at the
END of the recency list (most recently touched); but when a load must
evict, the evicted table is the most-recently-touched one — the LAST
element of the recency list — and `_GetSerializedEventSourceOffsetTable`
pops the EVENT offset recency list, so at capacity with an empty event
offset recency list it raises instead of evicting. -/
theorem claim_C9 (st : TableCacheState) (zipO : List (Nat × List Nat))
    (zipT : List (Nat × List Int)) (zipS : List (Nat × List Nat)) (n : Nat) :
    (∀ tbl, cacheGet zipT n = some tbl →
      st.eventTimestampTables.length ≤ maximumNumberOfCachedTables →
      (∀ p ∈ st.eventTimestampTables, p.1 ∈ st.eventTimestampTablesLfu) →
      (∀ k ∈ st.eventTimestampTablesLfu,
        (cacheGet st.eventTimestampTables k).isSome) →
      ∃ r st', getSerializedEventTimestampTable st zipT n = .ok (r, st') ∧
        st'.eventTimestampTables.length ≤ maximumNumberOfCachedTables ∧
        st'.eventTimestampTablesLfu.getLast? = some n ∧
        (maximumNumberOfCachedTables ≤ st.eventTimestampTables.length →
          cacheGet st.eventTimestampTables n = none →
          ∃ ev, st.eventTimestampTablesLfu.getLast? = some ev ∧ ev ≠ n ∧
            cacheGet st'.eventTimestampTables ev = none)) ∧
    (∀ tbl, cacheGet zipO n = some tbl →
      st.eventOffsetTables.length ≤ maximumNumberOfCachedTables →
      (∀ p ∈ st.eventOffsetTables, p.1 ∈ st.eventOffsetTablesLfu) →
      (∀ k ∈ st.eventOffsetTablesLfu,
        (cacheGet st.eventOffsetTables k).isSome) →
      ∃ r st', getSerializedEventOffsetTable st zipO n = .ok (r, st') ∧
        st'.eventOffsetTables.length ≤ maximumNumberOfCachedTables ∧
        st'.eventOffsetTablesLfu.getLast? = some n ∧
        (maximumNumberOfCachedTables ≤ st.eventOffsetTables.length →
          cacheGet st.eventOffsetTables n = none →
          ∃ ev, st.eventOffsetTablesLfu.getLast? = some ev ∧ ev ≠ n ∧
            cacheGet st'.eventOffsetTables ev = none)) ∧
    (∀ tbl, cacheGet st.eventSourceOffsetTables n = none →
      cacheGet zipS n = some tbl →
      maximumNumberOfCachedTables ≤ st.eventSourceOffsetTables.length →
      st.eventOffsetTablesLfu = [] →
      getSerializedEventSourceOffsetTable st zipS n =
        .error "IndexError: pop from empty list") :=
  ⟨fun tbl h1 h2 h3 h4 => getSerializedEventTimestampTable_spec st zipT n tbl h1 h2 h3 h4,
   fun tbl h1 h2 h3 h4 => getSerializedEventOffsetTable_spec st zipO n tbl h1 h2 h3 h4,
   fun tbl h1 h2 h3 h4 =>
     getSerializedEventSourceOffsetTable_evict_error st zipS n tbl h1 h2 h3 h4⟩

/-- The amended C9 at a concrete full cache: loading table 6 stays
within capacity, marks 6 most recently touched, and evicts the
previously most-recently-touched table (5). -/
theorem claim_C9_witness :
    ∃ r st', getSerializedEventTimestampTable demoFullTimestampCache
        demoTimestampZip 6 = .ok (r, st') ∧
      st'.eventTimestampTables.length ≤ maximumNumberOfCachedTables ∧
      st'.eventTimestampTablesLfu.getLast? = some 6 ∧
      (maximumNumberOfCachedTables ≤
          demoFullTimestampCache.eventTimestampTables.length →
        cacheGet demoFullTimestampCache.eventTimestampTables 6 = none →
        ∃ ev, demoFullTimestampCache.eventTimestampTablesLfu.getLast? = some ev ∧
          ev ≠ 6 ∧ cacheGet st'.eventTimestampTables ev = none) :=
  (claim_C9 demoFullTimestampCache [] demoTimestampZip [] 6).1 [60]
    (by decide) (by decide) (by decide) (by decide)

/-- Claim C10 (refuted as stated): with six finalized event-source
streams and fresh caches, `GetEventSourceByIndex` of an index past
every stored source raises the `IndexError` of `list.pop()` on an empty
list (the sixth stream's offset-table load evicts through the EVENT
offset recency list, which is empty) instead of returning `None`. -/
theorem claim_C10_counterexample :
    getEventSourceByIndex demoSourceZipTables demoSourceZipData 7
      AttributeContainersList.emptyList TableCacheState.fresh 100
    = .error "IndexError: pop from empty list" := by decide

/-- Claim C10 (amended): with at most five finalized event-source
streams (so the offset-table cache never reaches capacity from fresh),
every index at or past the total of stored and buffered event sources
makes `GetEventSourceByIndex` return `None` rather than raising: the
stream loop subtracts each stream's entry count and the buffer's
by-index accessor returns `None` past its end. -/
theorem claim_C10 (zipTables : List (Nat × List Nat))
    (zipData : List (Nat × List SBytes)) (S : Nat)
    (buffer : AttributeContainersList) (index : Nat)
    (hS : S ≤ maximumNumberOfCachedTables)
    (hzip : ∀ n ∈ List.range' 1 S, (cacheGet zipTables n).isSome)
    (hidx : sumSourceTables zipTables (List.range' 1 S) +
      buffer.list.length ≤ index) :
    ∃ st', getEventSourceByIndex zipTables zipData (S + 1) buffer
      TableCacheState.fresh index = .ok (none, st') := by
  obtain ⟨st', hloop⟩ := getEventSourceByIndexLoop_none zipTables zipData
    (List.range' 1 S) TableCacheState.fresh index
    (by simp only [TableCacheState.fresh, List.length_range', List.length_nil]
        omega)
    (fun n _ => rfl)
    hzip
    (List.nodup_range' 1 S)
    (by omega)
  refine ⟨st', ?_⟩
  unfold getEventSourceByIndex
  rw [show S + 1 - 1 = S by omega, hloop]
  dsimp only
  have hbuf : buffer.getAttributeContainerByIndex
      (index - sumSourceTables zipTables (List.range' 1 S)) = none := by
    unfold AttributeContainersList.getAttributeContainerByIndex
    rw [if_neg]
    omega
  rw [hbuf]

/-- The amended C10 at a concrete container: two finalized source
streams of one entry each, an empty buffer, index 10. -/
theorem claim_C10_witness :
    ∃ st', getEventSourceByIndex [(1, [0]), (2, [0])] [(1, [[1]]), (2, [[2]])]
      3 AttributeContainersList.emptyList TableCacheState.fresh 10 =
      .ok (none, st') :=
  claim_C10 [(1, [0]), (2, [0])] [(1, [[1]]), (2, [[2]])] 2
    AttributeContainersList.emptyList 10 (by decide) (by decide) (by decide)
